import Mathlib

/-!
Verification of the csv-browser-stream incremental CSV parser.

The definitions below are a shallow embedding of the TypeScript sources:
`src/parser.ts` (field tokenizer `parseCsvLine`, `normalizeHeader`) and the
`CSVStream` class (quote-aware chunk scanner `_processBuffer`, line processor
`_processLine`, `_transform`, `_flush`, abort handling).  Text is represented
as `List Char`; JavaScript string methods are modelled on that representation.
-/

namespace CsvStream

/-- Characters removed by JavaScript `String.prototype.trim` that can occur in
this code's inputs: ECMAScript WhiteSpace (including NBSP and the BOM
codepoint U+FEFF) and LineTerminator characters. -/
def jsWhitespaceChars : List Char :=
  [' ', '\t', '\n', '\r', Char.ofNat 11, Char.ofNat 12, Char.ofNat 160,
   Char.ofNat 0xFEFF, Char.ofNat 0x2028, Char.ofNat 0x2029]

/-- Whether `String.prototype.trim` removes this character. -/
def isJsWs (c : Char) : Bool := jsWhitespaceChars.contains c

/-- JavaScript `value.trim()` on a character list. -/
def jsTrim (l : List Char) : List Char :=
  ((l.dropWhile isJsWs).reverse.dropWhile isJsWs).reverse

/-- The byte-order-mark codepoint U+FEFF. -/
def bomChar : Char := Char.ofNat 0xFEFF

/-- JavaScript `value.replace(/^﻿/, '')`: strip one leading BOM. -/
def stripBom : List Char → List Char
  | [] => []
  | c :: rest => if c = bomChar then rest else c :: rest

/-- `normalizeHeader` from src/parser.ts: strip a leading BOM, then trim. -/
def normalizeHeader (value : List Char) : List Char := jsTrim (stripBom value)

/-- Result type of the tokenizer (`ParseResult` in src/types.ts): either the
ordered field list or the `UNBALANCED_QUOTES` error. -/
inductive ParseResult where
  | error : ParseResult
  | fields : List (List Char) → ParseResult
deriving DecidableEq

/-- Whether a `ParseResult` carries fields. -/
def ParseResult.isFields : ParseResult → Bool
  | ParseResult.error => false
  | ParseResult.fields _ => true

/-- The character loop of `parseCsvLine` from src/parser.ts.  `current` is the
field being accumulated (in reverse), `inQuotes` the quote flag.  A `"` while
in quotes followed by another `"` emits a literal quote and consumes both
characters; any other `"` toggles the flag; an unquoted delimiter finalizes
the current field; other characters are appended verbatim.  At end of input an
open quote yields `none` (the `UNBALANCED_QUOTES` case). -/
def parseCsvLineAux (delimiter : Char) :
    List Char → List Char → Bool → Option (List (List Char))
  | [], current, inQuotes =>
      if inQuotes = true then none else some [current.reverse]
  | c :: rest, current, inQuotes =>
      if c = '"' then
        match rest with
        | c2 :: rest2 =>
            if inQuotes = true ∧ c2 = '"' then
              parseCsvLineAux delimiter rest2 ('"' :: current) inQuotes
            else
              parseCsvLineAux delimiter (c2 :: rest2) current (!inQuotes)
        | [] => parseCsvLineAux delimiter [] current (!inQuotes)
      else if c = delimiter ∧ inQuotes = false then
        (parseCsvLineAux delimiter rest [] inQuotes).map
          (fun fs => current.reverse :: fs)
      else
        parseCsvLineAux delimiter rest (c :: current) inQuotes

/-- `parseCsvLine(line, delimiter)` from src/parser.ts. -/
def parseCsvLine (line : List Char) (delimiter : Char) : ParseResult :=
  match parseCsvLineAux delimiter line [] false with
  | none => ParseResult.error
  | some fs => ParseResult.fields fs

/-- The quote automaton of the tokenizer in isolation: the value of the
`inQuotes` flag after scanning the whole line (the delimiter branch never
changes the flag). -/
def quoteScan : List Char → Bool → Bool
  | [], inQuotes => inQuotes
  | c :: rest, inQuotes =>
      if c = '"' then
        match rest with
        | c2 :: rest2 =>
            if inQuotes = true ∧ c2 = '"' then quoteScan rest2 inQuotes
            else quoteScan (c2 :: rest2) (!inQuotes)
        | [] => !inQuotes
      else quoteScan rest inQuotes

/-- Number of delimiter occurrences the tokenizer processes outside quoted
regions (its unquoted-delimiter branch), following the same scan. -/
def unquotedDelimCount (delimiter : Char) : List Char → Bool → Nat
  | [], _ => 0
  | c :: rest, inQuotes =>
      if c = '"' then
        match rest with
        | c2 :: rest2 =>
            if inQuotes = true ∧ c2 = '"' then unquotedDelimCount delimiter rest2 inQuotes
            else unquotedDelimCount delimiter (c2 :: rest2) (!inQuotes)
        | [] => 0
      else if c = delimiter ∧ inQuotes = false then
        unquotedDelimCount delimiter rest inQuotes + 1
      else
        unquotedDelimCount delimiter rest inQuotes

example : parseCsvLine (("a,,c").toList) ',' =
    ParseResult.fields [['a'], [], ['c']] := by decide

example : parseCsvLine [] ',' = ParseResult.fields [[]] := by decide

/-! ## The CSVStream state machine (stream.ts) -/

/-- `CSVStreamOptions` with the defaults applied in the `CSVStream`
constructor. -/
structure CSVStreamOptions where
  delimiter : Char := ','
  expectHeaders : Bool := true
  headers : Option (List (List Char)) := none
  totalBytes : Option Nat := none
  progressInterval : Nat := 1000
  strictColumns : Bool := false

/-- The `type` field of an error event. -/
inductive CSVErrorType where
  | UNBALANCED_QUOTES
  | PARSE_ERROR
deriving DecidableEq

/-- The events a `CSVStream` dispatches: `headers`, `error`, `csvrow`,
`progress` and `end`, with the payload fields of the corresponding
`CSVStreamEventMap` entries.  A row object is an insertion-ordered
key-value list mirroring a JavaScript object. -/
inductive CSVEvent where
  | headersEvt (headers : List (List Char)) (lineNum : Nat)
  | errorEvt (type : CSVErrorType) (message : List Char) (lineNum : Nat) (raw : List Char)
  | csvrowEvt (rowNum : Nat) (fields : List (List Char × List Char)) (raw : List Char)
      (fieldsArray : List (List Char)) (columnCount : Nat)
  | progressEvt (bytesProcessed : Nat) (totalBytes : Option Nat) (lineNum : Nat) (rowNum : Nat)
  | endEvt (totalRows : Nat) (totalLines : Nat)
deriving DecidableEq

def isCsvrowEvt : CSVEvent → Bool
  | CSVEvent.csvrowEvt .. => true
  | _ => false

def isProgressEvt : CSVEvent → Bool
  | CSVEvent.progressEvt .. => true
  | _ => false

def isErrorEvt : CSVEvent → Bool
  | CSVEvent.errorEvt .. => true
  | _ => false

def isEndEvt : CSVEvent → Bool
  | CSVEvent.endEvt .. => true
  | _ => false

/-- Events with progress notifications removed (progress payloads carry the
byte counter, which is the one field that depends on fragmentation). -/
def nonProgress (evs : List CSVEvent) : List CSVEvent :=
  evs.filter (fun e => !isProgressEvt e)

/-- The mutable private fields of a `CSVStream` instance. -/
structure StreamState where
  headers : Option (List (List Char))
  lineNum : Nat
  rowNum : Nat
  buffer : List Char
  bytesProcessed : Nat
  lastProgressRow : Nat
  aborted : Bool
  headersValidated : Bool
  hasError : Bool
deriving DecidableEq

/-- Constructor-time state: headers are applied immediately only when
provided together with `expectHeaders: false`. -/
def initState (options : CSVStreamOptions) : StreamState :=
  { headers :=
      match options.headers with
      | some hs =>
          if options.expectHeaders = false then some (hs.map normalizeHeader) else none
      | none => none
    lineNum := 0
    rowNum := 0
    buffer := []
    bytesProcessed := 0
    lastProgressRow := 0
    aborted := false
    headersValidated := false
    hasError := false }

/-- JavaScript object assignment `obj[key] = value`: overwrite in place if the
key exists, otherwise append. -/
def objSet (obj : List (List Char × List Char)) (key value : List Char) :
    List (List Char × List Char) :=
  match obj with
  | [] => [(key, value)]
  | (k, v) :: rest => if k = key then (k, value) :: rest else (k, v) :: objSet rest key value

/-- Row object construction when headers are resolved:
`obj[headers[i]] = fields[i] ?? ''` for every header index. -/
def buildRowWithHeaders (headers fields : List (List Char)) :
    List (List Char × List Char) :=
  (List.range headers.length).foldl
    (fun obj i => objSet obj (headers.getD i []) (fields.getD i [])) []

/-- Decimal digits of `n`, as JavaScript `String(n)`. -/
def natChars (n : Nat) : List Char := Nat.toDigits 10 n

/-- Row object construction without headers: keys "1", "2", "3", … . -/
def buildRowNumericKeys (fields : List (List Char)) : List (List Char × List Char) :=
  (List.range fields.length).foldl
    (fun obj i => objSet obj (natChars (i + 1)) (fields.getD i [])) []

/-- Message of a tokenizer error event. -/
def unbalancedQuotesMessage : List Char := ("CSV parsing error: UNBALANCED_QUOTES").toList

/-- JavaScript `parts.join(', ')`. -/
def joinCommaSpace (parts : List (List Char)) : List Char :=
  List.intercalate ((", ").toList) parts

/-- Message of a header-mismatch error event. -/
def headerMismatchMessage (expected actual : List (List Char)) : List Char :=
  ("Header mismatch: expected [").toList ++ joinCommaSpace expected ++
    ("], got [").toList ++ joinCommaSpace actual ++ ("]").toList

/-- Message of a strict-columns error event. -/
def strictColumnsMessage (rowNum actualCols expectedCols : Nat) : List Char :=
  ("Row ").toList ++ natChars rowNum ++ (" has ").toList ++ natChars actualCols ++
    (" columns but expected ").toList ++ natChars expectedCols

/-- `rawLine.replace(/\r$/, '')`: drop one trailing carriage return. -/
def dropTrailingCR (l : List Char) : List Char :=
  if l.getLast? = some '\r' then l.dropLast else l

/-- `_maybeEmitProgress`: when the interval is non-zero and at least that many
rows were materialized since the last progress event, record the row and emit
one progress event. -/
def maybeEmitProgress (options : CSVStreamOptions) (s : StreamState) :
    StreamState × List CSVEvent :=
  if options.progressInterval = 0 then (s, [])
  else if options.progressInterval ≤ s.rowNum - s.lastProgressRow then
    ({ s with lastProgressRow := s.rowNum },
     [CSVEvent.progressEvt s.bytesProcessed options.totalBytes s.lineNum s.rowNum])
  else (s, [])

/-- Header normalization of the first meaningful line:
`fields.map((f, i) => i === 0 ? normalizeHeader(f) : f.trim())`. -/
def parseHeaderFields : List (List Char) → List (List Char)
  | [] => []
  | f :: rest => normalizeHeader f :: rest.map jsTrim

/-- The header comparison of `_processLine`: count first, then positional. -/
def headersMatch (expected parsedHeaders : List (List Char)) : Bool :=
  (expected.length == parsedHeaders.length) &&
    (expected.zip parsedHeaders).all (fun p => p.1 == p.2)

/-- `extraFields.some((f) => f.trim() !== '')` over `fields.slice(H)` when
headers are resolved; `false` when they are not. -/
def hasNonEmptyExtra (headers : Option (List (List Char)))
    (fields : List (List Char)) : Bool :=
  match headers with
  | some hs => (fields.drop hs.length).any (fun f => !(jsTrim f).isEmpty)
  | none => false

/-- `this._headers.length` where used in the strict-columns message. -/
def headerCount (headers : Option (List (List Char))) : Nat :=
  match headers with
  | some hs => hs.length
  | none => 0

/-- The data-row half of `_processLine`: increment the row counter, apply
strict-column enforcement, build the row object, emit the `csvrow` event and
possibly a progress event. -/
def rowPhase (options : CSVStreamOptions) (s : StreamState) (line : List Char)
    (fields : List (List Char)) : StreamState × List CSVEvent :=
  let s2 := { s with rowNum := s.rowNum + 1 }
  if options.strictColumns = true ∧ hasNonEmptyExtra s2.headers fields = true then
    ({ s2 with hasError := true },
     [CSVEvent.errorEvt CSVErrorType.PARSE_ERROR
        (strictColumnsMessage s2.rowNum fields.length (headerCount s2.headers))
        s2.lineNum line])
  else
    let row :=
      match s2.headers with
      | some hs => buildRowWithHeaders hs fields
      | none => buildRowNumericKeys fields
    let pr := maybeEmitProgress options s2
    (pr.1, CSVEvent.csvrowEvt s2.rowNum row line fields fields.length :: pr.2)

/-- `_processLine`: bump the line counter, strip a trailing CR, skip blank
lines, tokenize, then either report a tokenizer error, resolve/validate
headers on the first meaningful line, or materialize a data row. -/
def processLine (options : CSVStreamOptions) (s0 : StreamState) (rawLine : List Char) :
    StreamState × List CSVEvent :=
  let s := { s0 with lineNum := s0.lineNum + 1 }
  let line := dropTrailingCR rawLine
  if jsTrim line = [] then (s, [])
  else
    match parseCsvLine line options.delimiter with
    | ParseResult.error =>
        ({ s with hasError := true },
         [CSVEvent.errorEvt CSVErrorType.UNBALANCED_QUOTES unbalancedQuotesMessage
            s.lineNum line])
    | ParseResult.fields fields =>
        if options.expectHeaders = true ∧ s.headersValidated = false then
          let s1 := { s with headersValidated := true }
          let parsedHeaders := parseHeaderFields fields
          match options.headers with
          | some optHeaders =>
              let expected := optHeaders.map normalizeHeader
              if headersMatch expected parsedHeaders = true then
                ({ s1 with headers := some parsedHeaders },
                 [CSVEvent.headersEvt parsedHeaders s1.lineNum])
              else
                ({ s1 with hasError := true },
                 [CSVEvent.errorEvt CSVErrorType.PARSE_ERROR
                    (headerMismatchMessage expected parsedHeaders) s1.lineNum line])
          | none =>
              ({ s1 with headers := some parsedHeaders },
               [CSVEvent.headersEvt parsedHeaders s1.lineNum])
        else
          rowPhase options s line fields

/-- The buffer scan of `_processBuffer`: walk the buffer replaying the
tokenizer's quote automaton (including the doubled-quote skip) and cut a line
at every newline seen outside quotes.  Returns the complete lines in order and
the unterminated remainder.  `acc` holds the current line's characters in
reverse. -/
def scanBufferAux : List Char → List Char → Bool → List (List Char) × List Char
  | [], acc, _ => ([], acc.reverse)
  | c :: rest, acc, inQuotes =>
      if c = '"' then
        match rest with
        | c2 :: rest2 =>
            if inQuotes = true ∧ c2 = '"' then
              scanBufferAux rest2 (c2 :: c :: acc) inQuotes
            else
              scanBufferAux (c2 :: rest2) (c :: acc) (!inQuotes)
        | [] => scanBufferAux [] (c :: acc) (!inQuotes)
      else if c = '\n' ∧ inQuotes = false then
        let r := scanBufferAux rest [] false
        (acc.reverse :: r.1, r.2)
      else
        scanBufferAux rest (c :: acc) inQuotes

/-- The scan of `_processBuffer`, started as the code does: from the buffer's
beginning with the quote flag clear. -/
def scanBuffer (buffer : List Char) : List (List Char) × List Char :=
  scanBufferAux buffer [] false

/-- Result of the `_processBuffer` line loop: final state, emitted events, and
whether the loop returned early at an abort/error check (in which case the
buffer field is left untouched by `_processBuffer`). -/
structure LoopResult where
  state : StreamState
  events : List CSVEvent
  stopped : Bool
deriving DecidableEq

/-- The `_processBuffer` loop over the complete lines found in the buffer:
before each found line it re-checks the abort and error flags and returns
early when either is set. -/
def runLinesStop (options : CSVStreamOptions) :
    StreamState → List (List Char) → LoopResult
  | s, [] => ⟨s, [], false⟩
  | s, l :: ls =>
      if s.aborted = true ∨ s.hasError = true then ⟨s, [], true⟩
      else
        let r1 := processLine options s l
        let r2 := runLinesStop options r1.1 ls
        ⟨r2.state, r1.2 ++ r2.events, r2.stopped⟩

/-- `_processBuffer`: scan the buffer for complete lines, process them, and —
unless the loop returned early — replace the buffer by the unterminated
remainder. -/
def processBuffer (options : CSVStreamOptions) (s : StreamState) :
    StreamState × List CSVEvent :=
  let scanned := scanBuffer s.buffer
  let r := runLinesStop options s scanned.1
  (if r.stopped = true then r.state else { r.state with buffer := scanned.2 }, r.events)

/-- UTF-8 byte length of a chunk (`new TextEncoder().encode(chunk).length`). -/
def utf8Length (l : List Char) : Nat := (l.map Char.utf8Size).sum

/-- `_transform`: ignore the chunk if aborted or errored, otherwise count its
bytes, append it to the buffer and process the buffer. -/
def transform (options : CSVStreamOptions) (s : StreamState) (chunk : List Char) :
    StreamState × List CSVEvent :=
  if s.aborted = true ∨ s.hasError = true then (s, [])
  else
    processBuffer options
      { s with bytesProcessed := s.bytesProcessed + utf8Length chunk
               buffer := s.buffer ++ chunk }

/-- `_flush`: ignored if aborted or errored; otherwise the remaining buffer, if
non-empty, is processed as one final line, and an `end` event is emitted. -/
def flush (options : CSVStreamOptions) (s : StreamState) : StreamState × List CSVEvent :=
  if s.aborted = true ∨ s.hasError = true then (s, [])
  else
    let r :=
      if s.buffer ≠ [] then
        let r1 := processLine options s s.buffer
        ({ r1.1 with buffer := [] }, r1.2)
      else (s, [])
    (r.1, r.2 ++ [CSVEvent.endEvt r.1.rowNum r.1.lineNum])

/-- Feed a sequence of chunks through `_transform` (no flush). -/
def runChunks (options : CSVStreamOptions) :
    StreamState → List (List Char) → StreamState × List CSVEvent
  | s, [] => (s, [])
  | s, c :: cs =>
      let r1 := transform options s c
      let r2 := runChunks options r1.1 cs
      (r2.1, r1.2 ++ r2.2)

/-- A complete delivery: construct the stream, feed every chunk in order, then
flush at end of input. -/
def runCSV (options : CSVStreamOptions) (chunks : List (List Char)) :
    StreamState × List CSVEvent :=
  let r := runChunks options (initState options) chunks
  let rf := flush options r.1
  (rf.1, r.2 ++ rf.2)

/-- An interaction step with a live stream: either a chunk delivery or the
firing of the configured `AbortSignal` (which runs the registered listener,
setting the aborted flag). -/
inductive StreamOp where
  | chunk (text : List Char)
  | abortSignal

/-- Apply one interaction step. -/
def applyOp (options : CSVStreamOptions) (s : StreamState) :
    StreamOp → StreamState × List CSVEvent
  | StreamOp.chunk c => transform options s c
  | StreamOp.abortSignal => ({ s with aborted := true }, [])

/-- Apply a sequence of interaction steps. -/
def runOps (options : CSVStreamOptions) :
    StreamState → List StreamOp → StreamState × List CSVEvent
  | s, [] => (s, [])
  | s, op :: ops =>
      let r1 := applyOp options s op
      let r2 := runOps options r1.1 ops
      (r2.1, r1.2 ++ r2.2)

/-- A whole session: interaction steps followed by the end-of-input flush. -/
def runSession (options : CSVStreamOptions) (ops : List StreamOp) :
    StreamState × List CSVEvent :=
  let r := runOps options (initState options) ops
  let rf := flush options r.1
  (rf.1, r.2 ++ rf.2)

/-- Concatenation of a chunk sequence. -/
def joinChunks (chunks : List (List Char)) : List Char :=
  chunks.foldr (fun a b => a ++ b) []

/-! ## Tokenizer lemmas -/


theorem len_tail_le {α : Type} {c : α} {l : List α} {n : Nat}
    (h : (c :: l).length ≤ n + 1) : l.length ≤ n := by
  simp only [List.length_cons] at h
  omega

theorem len_tail2_le {α : Type} {c c2 : α} {l : List α} {n : Nat}
    (h : (c :: c2 :: l).length ≤ n + 1) : l.length ≤ n := by
  simp only [List.length_cons] at h
  omega

theorem parseCsvLineAux_cons_other (d c : Char) (rest cur : List Char) (inQ : Bool)
    (hc : ¬(c = '"')) :
    parseCsvLineAux d (c :: rest) cur inQ =
      if c = d ∧ inQ = false then
        (parseCsvLineAux d rest [] inQ).map (fun fs => cur.reverse :: fs)
      else parseCsvLineAux d rest (c :: cur) inQ := by
  cases rest <;> simp [parseCsvLineAux, hc]

theorem quoteScan_cons_other (c : Char) (rest : List Char) (inQ : Bool)
    (hc : ¬(c = '"')) : quoteScan (c :: rest) inQ = quoteScan rest inQ := by
  cases rest <;> simp [quoteScan, hc]

theorem unquotedDelimCount_cons_other (d c : Char) (rest : List Char) (inQ : Bool)
    (hc : ¬(c = '"')) :
    unquotedDelimCount d (c :: rest) inQ =
      if c = d ∧ inQ = false then unquotedDelimCount d rest inQ + 1
      else unquotedDelimCount d rest inQ := by
  cases rest <;> simp [unquotedDelimCount, hc]

theorem scanBufferAux_cons_other (c : Char) (rest acc : List Char) (inQ : Bool)
    (hc : ¬(c = '"')) :
    scanBufferAux (c :: rest) acc inQ =
      if c = '\n' ∧ inQ = false then
        ((acc.reverse :: (scanBufferAux rest [] false).1, (scanBufferAux rest [] false).2))
      else scanBufferAux rest (c :: acc) inQ := by
  cases rest <;> simp [scanBufferAux, hc]

theorem parseCsvLineAux_none_iff_aux (d : Char) :
    ∀ (n : Nat) (l cur : List Char) (inQ : Bool), l.length ≤ n →
      (parseCsvLineAux d l cur inQ = none ↔ quoteScan l inQ = true) := by
  intro n
  induction n with
  | zero =>
      intro l cur inQ hl
      have : l = [] := List.length_eq_zero.mp (Nat.le_zero.mp hl)
      subst this
      simp [parseCsvLineAux, quoteScan]
  | succ n ih =>
      intro l cur inQ hl
      cases l with
      | nil => simp [parseCsvLineAux, quoteScan]
      | cons c rest =>
          by_cases hc : c = '"'
          · subst hc
            cases rest with
            | nil => simp [parseCsvLineAux, quoteScan]
            | cons c2 rest2 =>
                by_cases hq : inQ = true ∧ c2 = '"'
                · simp only [parseCsvLineAux, quoteScan, if_pos rfl, if_pos hq]
                  exact ih rest2 ('"' :: cur) inQ (len_tail2_le hl)
                · simp only [parseCsvLineAux, quoteScan, if_pos rfl, if_neg hq]
                  exact ih (c2 :: rest2) cur (!inQ) (len_tail_le hl)
          · rw [parseCsvLineAux_cons_other d c rest cur inQ hc,
              quoteScan_cons_other c rest inQ hc]
            by_cases hdel : c = d ∧ inQ = false
            · rw [if_pos hdel, Option.map_eq_none']
              exact ih rest [] inQ (len_tail_le hl)
            · rw [if_neg hdel]
              exact ih rest (c :: cur) inQ (len_tail_le hl)

theorem parseCsvLineAux_none_iff (d : Char) (l cur : List Char) (inQ : Bool) :
    parseCsvLineAux d l cur inQ = none ↔ quoteScan l inQ = true :=
  parseCsvLineAux_none_iff_aux d l.length l cur inQ (Nat.le_refl _)

/-- The tokenizer fails exactly when the quote automaton ends the line with the
inside-quotes flag still set. -/
theorem parseCsvLine_error_iff (line : List Char) (d : Char) :
    parseCsvLine line d = ParseResult.error ↔ quoteScan line false = true := by
  unfold parseCsvLine
  rcases h : parseCsvLineAux d line [] false with _ | fs
  · simpa using (parseCsvLineAux_none_iff d line [] false).mp h
  · have := (parseCsvLineAux_none_iff d line [] false).not
    simp [h] at this
    simp [this]

theorem parseCsvLineAux_length_aux (d : Char) :
    ∀ (n : Nat) (l cur : List Char) (inQ : Bool) (fs : List (List Char)),
      l.length ≤ n → parseCsvLineAux d l cur inQ = some fs →
      fs.length = unquotedDelimCount d l inQ + 1 := by
  intro n
  induction n with
  | zero =>
      intro l cur inQ fs hl hp
      have : l = [] := List.length_eq_zero.mp (Nat.le_zero.mp hl)
      subst this
      simp [parseCsvLineAux] at hp
      rcases hp with ⟨_, rfl⟩
      simp [unquotedDelimCount]
  | succ n ih =>
      intro l cur inQ fs hl hp
      cases l with
      | nil =>
          simp [parseCsvLineAux] at hp
          rcases hp with ⟨_, rfl⟩
          simp [unquotedDelimCount]
      | cons c rest =>
          by_cases hc : c = '"'
          · subst hc
            cases rest with
            | nil =>
                cases inQ with
                | true =>
                    simp [parseCsvLineAux] at hp
                    subst hp
                    simp [unquotedDelimCount]
                | false => simp [parseCsvLineAux] at hp
            | cons c2 rest2 =>
                by_cases hq : inQ = true ∧ c2 = '"'
                · simp only [parseCsvLineAux, if_pos rfl, if_pos hq] at hp
                  simp only [unquotedDelimCount, if_pos rfl, if_pos hq]
                  exact ih rest2 _ inQ fs (len_tail2_le hl) hp
                · simp only [parseCsvLineAux, if_pos rfl, if_neg hq] at hp
                  simp only [unquotedDelimCount, if_pos rfl, if_neg hq]
                  exact ih (c2 :: rest2) cur (!inQ) fs (len_tail_le hl) hp
          · rw [parseCsvLineAux_cons_other d c rest cur inQ hc] at hp
            rw [unquotedDelimCount_cons_other d c rest inQ hc]
            by_cases hdel : c = d ∧ inQ = false
            · rw [if_pos hdel] at hp
              rw [if_pos hdel]
              rcases Option.map_eq_some'.mp hp with ⟨fs', hfs', rfl⟩
              have := ih rest [] inQ fs' (len_tail_le hl) hfs'
              simp [this]
            · rw [if_neg hdel] at hp
              rw [if_neg hdel]
              exact ih rest (c :: cur) inQ fs (len_tail_le hl) hp

theorem parseCsvLineAux_length (d : Char) (l cur : List Char) (inQ : Bool)
    (fs : List (List Char)) (hp : parseCsvLineAux d l cur inQ = some fs) :
    fs.length = unquotedDelimCount d l inQ + 1 :=
  parseCsvLineAux_length_aux d l.length l cur inQ fs (Nat.le_refl _) hp

/-- Whenever the tokenizer returns fields, their number is one more than the
number of delimiters it saw outside quoted regions. -/
theorem parseCsvLine_length (line : List Char) (d : Char) (fs : List (List Char))
    (hp : parseCsvLine line d = ParseResult.fields fs) :
    fs.length = unquotedDelimCount d line false + 1 := by
  unfold parseCsvLine at hp
  rcases h : parseCsvLineAux d line [] false with _ | fs'
  · simp [h] at hp
  · simp [h] at hp
    subst hp
    exact parseCsvLineAux_length d line [] false fs' h

theorem parseCsvLineAux_ne_nil (d : Char) (l cur : List Char) (inQ : Bool)
    (fs : List (List Char)) (hp : parseCsvLineAux d l cur inQ = some fs) :
    fs ≠ [] := by
  have := parseCsvLineAux_length d l cur inQ fs hp
  intro h
  subst h
  simp at this

theorem getLast?_cons_of_ne_nil {α : Type} (a : α) {l : List α} (h : l ≠ []) :
    (a :: l).getLast? = l.getLast? := by
  cases l with
  | nil => exact absurd rfl h
  | cons b t => simp [List.getLast?]

theorem parseCsvLineAux_trailing_aux (d : Char) (hd : d ≠ '"') :
    ∀ (n : Nat) (l cur : List Char) (inQ : Bool) (fs : List (List Char)),
      l.length ≤ n → parseCsvLineAux d l cur inQ = some fs →
      l.getLast? = some d → fs.getLast? = some [] := by
  intro n
  induction n with
  | zero =>
      intro l cur inQ fs hl hp hlast
      have : l = [] := List.length_eq_zero.mp (Nat.le_zero.mp hl)
      subst this
      simp at hlast
  | succ n ih =>
      intro l cur inQ fs hl hp hlast
      cases l with
      | nil => simp at hlast
      | cons c rest =>
          cases rest with
          | nil =>
              simp at hlast
              have hc : ¬(c = '"') := fun h => hd (hlast.symm.trans h)
              rw [parseCsvLineAux_cons_other d c [] cur inQ hc] at hp
              cases inQ with
              | true =>
                  rw [if_neg (by simp : ¬(c = d ∧ true = false))] at hp
                  simp [parseCsvLineAux] at hp
              | false =>
                  rw [if_pos (⟨hlast, rfl⟩ : c = d ∧ false = false)] at hp
                  simp [parseCsvLineAux] at hp
                  subst hp
                  simp
          | cons c2 rest2 =>
              have hlast2 : (c2 :: rest2).getLast? = some d := by
                rw [getLast?_cons_of_ne_nil c (by simp)] at hlast
                exact hlast
              by_cases hc : c = '"'
              · subst hc
                by_cases hq : inQ = true ∧ c2 = '"'
                · cases rest2 with
                  | nil =>
                      simp at hlast2
                      exact absurd (hlast2 ▸ hq.2) hd
                  | cons c3 rest3 =>
                      simp only [parseCsvLineAux, if_pos rfl, if_pos hq] at hp
                      refine ih (c3 :: rest3) _ inQ fs (len_tail2_le hl) hp ?_
                      rw [getLast?_cons_of_ne_nil c2 (by simp)] at hlast2
                      exact hlast2
                · simp only [parseCsvLineAux, if_pos rfl, if_neg hq] at hp
                  exact ih (c2 :: rest2) cur (!inQ) fs (len_tail_le hl) hp hlast2
              · rw [parseCsvLineAux_cons_other d c (c2 :: rest2) cur inQ hc] at hp
                by_cases hdel : c = d ∧ inQ = false
                · rw [if_pos hdel] at hp
                  rcases Option.map_eq_some'.mp hp with ⟨fs', hfs', rfl⟩
                  have hne := parseCsvLineAux_ne_nil d (c2 :: rest2) [] inQ fs' hfs'
                  rw [getLast?_cons_of_ne_nil _ hne]
                  exact ih (c2 :: rest2) [] inQ fs' (len_tail_le hl) hfs' hlast2
                · rw [if_neg hdel] at hp
                  exact ih (c2 :: rest2) (c :: cur) inQ fs (len_tail_le hl) hp hlast2

/-- A line whose tokenization succeeds and whose final character is an
unquoted delimiter occurrence (the delimiter is not the quote character) ends
in an empty field. -/
theorem parseCsvLine_trailing (line : List Char) (d : Char) (fs : List (List Char))
    (hd : d ≠ '"') (hp : parseCsvLine line d = ParseResult.fields fs)
    (hlast : line.getLast? = some d) : fs.getLast? = some [] := by
  unfold parseCsvLine at hp
  rcases h : parseCsvLineAux d line [] false with _ | fs'
  · simp [h] at hp
  · simp [h] at hp
    subst hp
    exact parseCsvLineAux_trailing_aux d hd line.length line [] false fs' (Nat.le_refl _) h hlast

/-! ## A one-character-at-a-time view of the buffer scan

The `_processBuffer` scan consumes two characters at once on an escaped quote,
so its state at a fragment boundary is not directly composable.  The
three-state automaton below consumes one character at a time (the state
`afterQuote` represents "just saw a quote while inside quotes") and computes
the same lines and remainder; it composes over `++` and is used to prove the
fragmentation lemmas. -/

inductive QState where
  | outside
  | inside
  | afterQuote
deriving DecidableEq

/-- One-character-at-a-time scan computing the same cut positions as
`scanBufferAux`, together with the automaton state after the input. -/
def scan3Aux : List Char → List Char → QState → List (List Char) × List Char × QState
  | [], acc, q => ([], acc, q)
  | c :: rest, acc, QState.inside =>
      if c = '"' then scan3Aux rest (c :: acc) QState.afterQuote
      else scan3Aux rest (c :: acc) QState.inside
  | c :: rest, acc, QState.afterQuote =>
      if c = '"' then scan3Aux rest (c :: acc) QState.inside
      else if c = '\n' then
        (acc.reverse :: (scan3Aux rest [] QState.outside).1,
         (scan3Aux rest [] QState.outside).2)
      else scan3Aux rest (c :: acc) QState.outside
  | c :: rest, acc, QState.outside =>
      if c = '"' then scan3Aux rest (c :: acc) QState.inside
      else if c = '\n' then
        (acc.reverse :: (scan3Aux rest [] QState.outside).1,
         (scan3Aux rest [] QState.outside).2)
      else scan3Aux rest (c :: acc) QState.outside

theorem scan3Aux_afterQuote_eq_outside (c : Char) (rest acc : List Char)
    (hc : ¬(c = '"')) :
    scan3Aux (c :: rest) acc QState.afterQuote = scan3Aux (c :: rest) acc QState.outside := by
  simp [scan3Aux, hc]

theorem scanBufferAux_eq_scan3_aux :
    ∀ (n : Nat) (l acc : List Char), l.length ≤ n →
      (scanBufferAux l acc false =
        ((scan3Aux l acc QState.outside).1, (scan3Aux l acc QState.outside).2.1.reverse)) ∧
      (scanBufferAux l acc true =
        ((scan3Aux l acc QState.inside).1, (scan3Aux l acc QState.inside).2.1.reverse)) := by
  intro n
  induction n with
  | zero =>
      intro l acc hl
      have : l = [] := List.length_eq_zero.mp (Nat.le_zero.mp hl)
      subst this
      simp [scanBufferAux, scan3Aux]
  | succ n ih =>
      intro l acc hl
      cases l with
      | nil => simp [scanBufferAux, scan3Aux]
      | cons c rest =>
          by_cases hc : c = '"'
          · subst hc
            constructor
            · cases rest with
              | nil => simp [scanBufferAux, scan3Aux]
              | cons c2 rest2 =>
                  have h1 : scanBufferAux ('"' :: c2 :: rest2) acc false =
                      scanBufferAux (c2 :: rest2) ('"' :: acc) true := by
                    simp [scanBufferAux]
                  have h2 : scan3Aux ('"' :: c2 :: rest2) acc QState.outside =
                      scan3Aux (c2 :: rest2) ('"' :: acc) QState.inside := by
                    simp [scan3Aux]
                  rw [h1, h2]
                  exact (ih (c2 :: rest2) ('"' :: acc) (len_tail_le hl)).2
            · cases rest with
              | nil => simp [scanBufferAux, scan3Aux]
              | cons c2 rest2 =>
                  by_cases hq : c2 = '"'
                  · subst hq
                    have h1 : scanBufferAux ('"' :: '"' :: rest2) acc true =
                        scanBufferAux rest2 ('"' :: '"' :: acc) true := by
                      simp [scanBufferAux]
                    have h2 : scan3Aux ('"' :: '"' :: rest2) acc QState.inside =
                        scan3Aux rest2 ('"' :: '"' :: acc) QState.inside := by
                      simp [scan3Aux]
                    rw [h1, h2]
                    exact (ih rest2 ('"' :: '"' :: acc) (len_tail2_le hl)).2
                  · have h1 : scanBufferAux ('"' :: c2 :: rest2) acc true =
                        scanBufferAux (c2 :: rest2) ('"' :: acc) false := by
                      simp [scanBufferAux, hq]
                    have h2 : scan3Aux ('"' :: c2 :: rest2) acc QState.inside =
                        scan3Aux (c2 :: rest2) ('"' :: acc) QState.outside := by
                      rw [show scan3Aux ('"' :: c2 :: rest2) acc QState.inside =
                          scan3Aux (c2 :: rest2) ('"' :: acc) QState.afterQuote by
                            simp [scan3Aux]]
                      exact scan3Aux_afterQuote_eq_outside c2 rest2 ('"' :: acc) hq
                    rw [h1, h2]
                    exact (ih (c2 :: rest2) ('"' :: acc) (len_tail_le hl)).1
          · constructor
            · rw [scanBufferAux_cons_other c rest acc false hc]
              by_cases hn : c = '\n'
              · rw [if_pos ⟨hn, rfl⟩]
                subst hn
                have h2 : scan3Aux ('\n' :: rest) acc QState.outside =
                    (acc.reverse :: (scan3Aux rest [] QState.outside).1,
                     (scan3Aux rest [] QState.outside).2) := by
                  simp [scan3Aux, hc]
                rw [h2]
                have := (ih rest [] (len_tail_le hl)).1
                simp [this]
              · rw [if_neg (by simp [hn] : ¬(c = '\n' ∧ false = false))]
                have h2 : scan3Aux (c :: rest) acc QState.outside =
                    scan3Aux rest (c :: acc) QState.outside := by
                  simp [scan3Aux, hc, hn]
                rw [h2]
                exact (ih rest (c :: acc) (len_tail_le hl)).1
            · rw [scanBufferAux_cons_other c rest acc true hc]
              rw [if_neg (by simp : ¬(c = '\n' ∧ true = false))]
              have h2 : scan3Aux (c :: rest) acc QState.inside =
                  scan3Aux rest (c :: acc) QState.inside := by
                simp [scan3Aux, hc]
              rw [h2]
              exact (ih rest (c :: acc) (len_tail_le hl)).2

/-- The faithful `_processBuffer` scan computes the lines and remainder of the
one-character automaton started outside quotes. -/
theorem scanBuffer_eq_scan3 (buffer : List Char) :
    scanBuffer buffer =
      ((scan3Aux buffer [] QState.outside).1,
       (scan3Aux buffer [] QState.outside).2.1.reverse) :=
  (scanBufferAux_eq_scan3_aux buffer.length buffer [] (Nat.le_refl _)).1

/-- The one-character scan composes over concatenation. -/
theorem scan3Aux_append :
    ∀ (a b acc : List Char) (q : QState),
      scan3Aux (a ++ b) acc q =
        ((scan3Aux a acc q).1 ++
           (scan3Aux b (scan3Aux a acc q).2.1 (scan3Aux a acc q).2.2).1,
         (scan3Aux b (scan3Aux a acc q).2.1 (scan3Aux a acc q).2.2).2) := by
  intro a
  induction a with
  | nil => intro b acc q; simp [scan3Aux]
  | cons c rest ih =>
      intro b acc q
      cases q with
      | inside =>
          by_cases hc : c = '"' <;> simp [scan3Aux, hc, ih]
      | afterQuote =>
          by_cases hc : c = '"'
          · simp [scan3Aux, hc, ih]
          · by_cases hn : c = '\n' <;> simp [scan3Aux, hc, hn, ih]
      | outside =>
          by_cases hc : c = '"'
          · simp [scan3Aux, hc, ih]
          · by_cases hn : c = '\n' <;> simp [scan3Aux, hc, hn, ih]

/-- If the scan cut no line, the remainder is the whole input. -/
theorem scan3Aux_nocut :
    ∀ (a acc : List Char) (q : QState), (scan3Aux a acc q).1 = [] →
      (scan3Aux a acc q).2.1 = a.reverse ++ acc := by
  intro a
  induction a with
  | nil => intro acc q _; simp [scan3Aux]
  | cons c rest ih =>
      intro acc q
      cases q with
      | inside =>
          by_cases hc : c = '"' <;> intro h <;>
            simpa [scan3Aux, hc] using ih (c :: acc) _ (by simpa [scan3Aux, hc] using h)
      | afterQuote =>
          by_cases hc : c = '"'
          · intro h
            simpa [scan3Aux, hc] using ih (c :: acc) _ (by simpa [scan3Aux, hc] using h)
          · by_cases hn : c = '\n'
            · intro h
              simp [scan3Aux, hc, hn] at h
            · intro h
              simpa [scan3Aux, hc, hn] using
                ih (c :: acc) _ (by simpa [scan3Aux, hc, hn] using h)
      | outside =>
          by_cases hc : c = '"'
          · intro h
            simpa [scan3Aux, hc] using ih (c :: acc) _ (by simpa [scan3Aux, hc] using h)
          · by_cases hn : c = '\n'
            · intro h
              simp [scan3Aux, hc, hn] at h
            · intro h
              simpa [scan3Aux, hc, hn] using
                ih (c :: acc) _ (by simpa [scan3Aux, hc, hn] using h)

/-- After at least one cut, rescanning the remainder from the outside state
with an empty accumulator reproduces it unchanged, with no further cuts and
the same final state: the remainder always starts right after a cut, where the
scan is outside quotes with an empty current line. -/
theorem scan3Aux_rescan :
    ∀ (a acc : List Char) (q : QState), (scan3Aux a acc q).1 ≠ [] →
      scan3Aux (scan3Aux a acc q).2.1.reverse [] QState.outside =
        ([], (scan3Aux a acc q).2.1, (scan3Aux a acc q).2.2) := by
  intro a
  induction a with
  | nil => intro acc q h; simp [scan3Aux] at h
  | cons c rest ih =>
      intro acc q
      cases q with
      | inside =>
          by_cases hc : c = '"' <;> intro h <;>
            simpa [scan3Aux, hc] using ih (c :: acc) _ (by simpa [scan3Aux, hc] using h)
      | afterQuote =>
          by_cases hc : c = '"'
          · intro h
            simpa [scan3Aux, hc] using ih (c :: acc) _ (by simpa [scan3Aux, hc] using h)
          · by_cases hn : c = '\n'
            · intro _
              subst hn
              rcases hr : scan3Aux rest [] QState.outside with ⟨ls, racc, q2⟩
              have hstep : scan3Aux ('\n' :: rest) acc QState.afterQuote =
                  (acc.reverse :: ls, racc, q2) := by
                simp [scan3Aux, hc, hr]
              rw [hstep]
              show scan3Aux racc.reverse [] QState.outside = ([], racc, q2)
              by_cases hrest : ls = []
              · have h21 : racc = rest.reverse := by
                  have := scan3Aux_nocut rest [] QState.outside (by simp [hr, hrest])
                  rw [hr] at this
                  simpa using this
                subst h21
                simp only [List.reverse_reverse]
                rw [hr, hrest]
              · have := ih [] QState.outside (by simp [hr, hrest])
                rw [hr] at this
                simpa using this
            · intro h
              simpa [scan3Aux, hc, hn] using
                ih (c :: acc) _ (by simpa [scan3Aux, hc, hn] using h)
      | outside =>
          by_cases hc : c = '"'
          · intro h
            simpa [scan3Aux, hc] using ih (c :: acc) _ (by simpa [scan3Aux, hc] using h)
          · by_cases hn : c = '\n'
            · intro _
              subst hn
              rcases hr : scan3Aux rest [] QState.outside with ⟨ls, racc, q2⟩
              have hstep : scan3Aux ('\n' :: rest) acc QState.outside =
                  (acc.reverse :: ls, racc, q2) := by
                simp [scan3Aux, hc, hr]
              rw [hstep]
              show scan3Aux racc.reverse [] QState.outside = ([], racc, q2)
              by_cases hrest : ls = []
              · have h21 : racc = rest.reverse := by
                  have := scan3Aux_nocut rest [] QState.outside (by simp [hr, hrest])
                  rw [hr] at this
                  simpa using this
                subst h21
                simp only [List.reverse_reverse]
                rw [hr, hrest]
              · have := ih [] QState.outside (by simp [hr, hrest])
                rw [hr] at this
                simpa using this
            · intro h
              simpa [scan3Aux, hc, hn] using
                ih (c :: acc) _ (by simpa [scan3Aux, hc, hn] using h)

/-- Top-level rescan property: rescanning the remainder of a scan started
outside quotes reproduces it, with no cuts and the same final state. -/
theorem scan3_rescan (t : List Char) :
    scan3Aux (scan3Aux t [] QState.outside).2.1.reverse [] QState.outside =
      ([], (scan3Aux t [] QState.outside).2.1, (scan3Aux t [] QState.outside).2.2) := by
  rcases hr : scan3Aux t [] QState.outside with ⟨ls, racc, q2⟩
  show scan3Aux racc.reverse [] QState.outside = ([], racc, q2)
  by_cases h : ls = []
  · have h21 : racc = t.reverse := by
      have := scan3Aux_nocut t [] QState.outside (by simp [hr, h])
      rw [hr] at this
      simpa using this
    subst h21
    simp only [List.reverse_reverse]
    rw [hr, h]
  · have := scan3Aux_rescan t [] QState.outside (by simp [hr, h])
    rw [hr] at this
    simpa using this

/-! ## The scanner never cuts inside a quoted region

`qstate3` is the pure state function of the one-character quote automaton;
`quoteScan_eq_qstate3` ties it back to the tokenizer's own (lookahead) quote
automaton, so that "inside a quoted region" below means inside per the
tokenizer that will consume the line. -/

/-- State of the one-character quote automaton after scanning a list. -/
def qstate3 : List Char → QState → QState
  | [], q => q
  | c :: rest, QState.inside =>
      if c = '"' then qstate3 rest QState.afterQuote else qstate3 rest QState.inside
  | c :: rest, QState.afterQuote =>
      if c = '"' then qstate3 rest QState.inside else qstate3 rest QState.outside
  | c :: rest, QState.outside =>
      if c = '"' then qstate3 rest QState.inside else qstate3 rest QState.outside

/-- Whether a state is strictly inside an open quoted region. -/
def qIsInside : QState → Bool
  | QState.inside => true
  | _ => false

/-- Logical lines re-joined with their terminators, as they occurred in the
input. -/
def joinLines : List (List Char) → List Char
  | [] => []
  | l :: ls => l ++ '\n' :: joinLines ls

/-- The buffer pipeline of `_transform`/`_processBuffer` across a fragment
sequence: each fragment is appended to the pending buffer, the complete lines
are extracted (each handed to `_processLine`, hence to the tokenizer), and the
unterminated remainder is kept for the next fragment. -/
def scanChunks : List Char → List (List Char) → List (List Char) × List Char
  | buf, [] => ([], buf)
  | buf, c :: cs =>
      let r := scanBuffer (buf ++ c)
      let rest := scanChunks r.2 cs
      (r.1 ++ rest.1, rest.2)

theorem qstate3_append : ∀ (a b : List Char) (q : QState),
    qstate3 (a ++ b) q = qstate3 b (qstate3 a q) := by
  intro a
  induction a with
  | nil => intro b q; rfl
  | cons c rest ih =>
      intro b q
      cases q <;> by_cases hc : c = '"' <;> simp [qstate3, hc, ih]

theorem qstate3_afterQuote_eq_outside (c : Char) (rest : List Char)
    (hc : ¬(c = '"')) :
    qstate3 (c :: rest) QState.afterQuote = qstate3 (c :: rest) QState.outside := by
  simp [qstate3, hc]

theorem quoteScan_eq_qstate3_aux :
    ∀ (n : Nat) (l : List Char), l.length ≤ n →
      quoteScan l false = qIsInside (qstate3 l QState.outside) ∧
      quoteScan l true = qIsInside (qstate3 l QState.inside) := by
  intro n
  induction n with
  | zero =>
      intro l hl
      have : l = [] := List.length_eq_zero.mp (Nat.le_zero.mp hl)
      subst this
      simp [quoteScan, qstate3, qIsInside]
  | succ n ih =>
      intro l hl
      cases l with
      | nil => simp [quoteScan, qstate3, qIsInside]
      | cons c rest =>
          by_cases hc : c = '"'
          · subst hc
            constructor
            · cases rest with
              | nil => simp [quoteScan, qstate3, qIsInside]
              | cons c2 rest2 =>
                  have h1 : quoteScan ('"' :: c2 :: rest2) false =
                      quoteScan (c2 :: rest2) true := by
                    simp [quoteScan]
                  have h2 : qstate3 ('"' :: c2 :: rest2) QState.outside =
                      qstate3 (c2 :: rest2) QState.inside := by
                    simp [qstate3]
                  rw [h1, h2]
                  exact (ih (c2 :: rest2) (len_tail_le hl)).2
            · cases rest with
              | nil => simp [quoteScan, qstate3, qIsInside]
              | cons c2 rest2 =>
                  by_cases hq : c2 = '"'
                  · subst hq
                    have h1 : quoteScan ('"' :: '"' :: rest2) true =
                        quoteScan rest2 true := by
                      simp [quoteScan]
                    have h2 : qstate3 ('"' :: '"' :: rest2) QState.inside =
                        qstate3 rest2 QState.inside := by
                      simp [qstate3]
                    rw [h1, h2]
                    exact (ih rest2 (len_tail2_le hl)).2
                  · have h1 : quoteScan ('"' :: c2 :: rest2) true =
                        quoteScan (c2 :: rest2) false := by
                      simp [quoteScan, hq]
                    have h2 : qstate3 ('"' :: c2 :: rest2) QState.inside =
                        qstate3 (c2 :: rest2) QState.outside := by
                      rw [show qstate3 ('"' :: c2 :: rest2) QState.inside =
                          qstate3 (c2 :: rest2) QState.afterQuote by simp [qstate3]]
                      exact qstate3_afterQuote_eq_outside c2 rest2 hq
                    rw [h1, h2]
                    exact (ih (c2 :: rest2) (len_tail_le hl)).1
          · constructor
            · rw [quoteScan_cons_other c rest false hc,
                show qstate3 (c :: rest) QState.outside = qstate3 rest QState.outside by
                  simp [qstate3, hc]]
              exact (ih rest (len_tail_le hl)).1
            · rw [quoteScan_cons_other c rest true hc,
                show qstate3 (c :: rest) QState.inside = qstate3 rest QState.inside by
                  simp [qstate3, hc]]
              exact (ih rest (len_tail_le hl)).2

theorem quoteScan_eq_qstate3 (l : List Char) :
    quoteScan l false = qIsInside (qstate3 l QState.outside) :=
  (quoteScan_eq_qstate3_aux l.length l (Nat.le_refl _)).1

/-- Invariant of the buffer scan: whenever the pending line `acc` was
accumulated from the state `q`, every line the scan emits is quote-balanced:
rescanning it from outside quotes does not end inside quotes. -/
theorem scan3Aux_lines_balanced :
    ∀ (t acc : List Char) (q : QState),
      qstate3 acc.reverse QState.outside = q →
      ∀ x ∈ (scan3Aux t acc q).1, qstate3 x QState.outside ≠ QState.inside := by
  intro t
  induction t with
  | nil => intro acc q _ x hx; simp [scan3Aux] at hx
  | cons c rest ih =>
      intro acc q hacc x hx
      have hstep : ∀ q2 : QState, qstate3 ((c :: acc).reverse) QState.outside =
          qstate3 [c] q2 → qstate3 ((c :: acc).reverse) QState.outside = qstate3 [c] q2 :=
        fun _ h => h
      have hext : qstate3 ((c :: acc).reverse) QState.outside = qstate3 [c] q := by
        rw [show (c :: acc).reverse = acc.reverse ++ [c] by simp, qstate3_append, hacc]
      cases q with
      | inside =>
          by_cases hc : c = '"'
          · rw [show scan3Aux (c :: rest) acc QState.inside =
                scan3Aux rest (c :: acc) QState.afterQuote by simp [scan3Aux, hc]] at hx
            exact ih (c :: acc) QState.afterQuote
              (by rw [hext]; simp [qstate3, hc]) x hx
          · rw [show scan3Aux (c :: rest) acc QState.inside =
                scan3Aux rest (c :: acc) QState.inside by simp [scan3Aux, hc]] at hx
            exact ih (c :: acc) QState.inside
              (by rw [hext]; simp [qstate3, hc]) x hx
      | afterQuote =>
          by_cases hc : c = '"'
          · rw [show scan3Aux (c :: rest) acc QState.afterQuote =
                scan3Aux rest (c :: acc) QState.inside by simp [scan3Aux, hc]] at hx
            exact ih (c :: acc) QState.inside
              (by rw [hext]; simp [qstate3, hc]) x hx
          · by_cases hn : c = '\n'
            · rw [show scan3Aux (c :: rest) acc QState.afterQuote =
                  (acc.reverse :: (scan3Aux rest [] QState.outside).1,
                   (scan3Aux rest [] QState.outside).2) by simp [scan3Aux, hc, hn]] at hx
              rcases List.mem_cons.mp hx with rfl | hx2
              · rw [hacc]
                simp
              · exact ih [] QState.outside rfl x hx2
            · rw [show scan3Aux (c :: rest) acc QState.afterQuote =
                  scan3Aux rest (c :: acc) QState.outside by simp [scan3Aux, hc, hn]] at hx
              exact ih (c :: acc) QState.outside
                (by rw [hext]; simp [qstate3, hc]) x hx
      | outside =>
          by_cases hc : c = '"'
          · rw [show scan3Aux (c :: rest) acc QState.outside =
                scan3Aux rest (c :: acc) QState.inside by simp [scan3Aux, hc]] at hx
            exact ih (c :: acc) QState.inside
              (by rw [hext]; simp [qstate3, hc]) x hx
          · by_cases hn : c = '\n'
            · rw [show scan3Aux (c :: rest) acc QState.outside =
                  (acc.reverse :: (scan3Aux rest [] QState.outside).1,
                   (scan3Aux rest [] QState.outside).2) by simp [scan3Aux, hc, hn]] at hx
              rcases List.mem_cons.mp hx with rfl | hx2
              · rw [hacc]
                simp
              · exact ih [] QState.outside rfl x hx2
            · rw [show scan3Aux (c :: rest) acc QState.outside =
                  scan3Aux rest (c :: acc) QState.outside by simp [scan3Aux, hc, hn]] at hx
              exact ih (c :: acc) QState.outside
                (by rw [hext]; simp [qstate3, hc]) x hx

/-- The lines the scan emits, each re-terminated, followed by the remainder,
reassemble the scanned text after the pending prefix: the scan loses or
reorders nothing. -/
theorem scan3Aux_reconstruct :
    ∀ (t acc : List Char) (q : QState),
      joinLines (scan3Aux t acc q).1 ++ (scan3Aux t acc q).2.1.reverse =
        acc.reverse ++ t := by
  intro t
  induction t with
  | nil => intro acc q; simp [scan3Aux, joinLines]
  | cons c rest ih =>
      intro acc q
      cases q with
      | inside =>
          by_cases hc : c = '"' <;>
            simpa [scan3Aux, hc, List.append_assoc] using ih (c :: acc) _
      | afterQuote =>
          by_cases hc : c = '"'
          · simpa [scan3Aux, hc, List.append_assoc] using ih (c :: acc) QState.inside
          · by_cases hn : c = '\n'
            · subst hn
              have := ih [] QState.outside
              simp [scan3Aux, hc, joinLines, List.append_assoc]
              simpa [joinLines] using this
            · simpa [scan3Aux, hc, hn, List.append_assoc] using
                ih (c :: acc) QState.outside
      | outside =>
          by_cases hc : c = '"'
          · simpa [scan3Aux, hc, List.append_assoc] using ih (c :: acc) QState.inside
          · by_cases hn : c = '\n'
            · subst hn
              have := ih [] QState.outside
              simp [scan3Aux, hc, joinLines, List.append_assoc]
              simpa [joinLines] using this
            · simpa [scan3Aux, hc, hn, List.append_assoc] using
                ih (c :: acc) QState.outside

/-- Every logical line `_processBuffer` extracts is quote-balanced: the
tokenizer's quote automaton, replayed over the line, ends outside quotes, so
the scanner never ended the line at a terminator inside a quoted region. -/
theorem scanBuffer_lines_balanced (t : List Char) :
    ∀ l ∈ (scanBuffer t).1, quoteScan l false = false := by
  intro l hl
  rw [scanBuffer_eq_scan3] at hl
  have h3 := scan3Aux_lines_balanced t [] QState.outside rfl l hl
  rw [quoteScan_eq_qstate3]
  cases hq : qstate3 l QState.outside with
  | inside => exact absurd hq h3
  | afterQuote => rfl
  | outside => rfl

/-- Reconstruction at the `_processBuffer` level: the extracted lines with
their terminators, followed by the buffered remainder, are exactly the
scanned text. -/
theorem scanBuffer_reconstruct (t : List Char) :
    joinLines (scanBuffer t).1 ++ (scanBuffer t).2 = t := by
  rw [scanBuffer_eq_scan3]
  simpa using scan3Aux_reconstruct t [] QState.outside

theorem scanBuffer_remainder (t : List Char) :
    scanBuffer ((scanBuffer t).2) = ([], (scanBuffer t).2) := by
  have h1 : (scanBuffer t).2 = (scan3Aux t [] QState.outside).2.1.reverse := by
    rw [scanBuffer_eq_scan3]
  rw [h1, scanBuffer_eq_scan3, scan3_rescan]

theorem scanBuffer_step (t c : List Char) :
    scanBuffer (t ++ c) =
      ((scanBuffer t).1 ++ (scanBuffer ((scanBuffer t).2 ++ c)).1,
       (scanBuffer ((scanBuffer t).2 ++ c)).2) := by
  have h2 : (scanBuffer t).2 = (scan3Aux t [] QState.outside).2.1.reverse := by
    rw [scanBuffer_eq_scan3]
  rw [h2, scanBuffer_eq_scan3 (t ++ c), scanBuffer_eq_scan3 t,
    scanBuffer_eq_scan3 ((scan3Aux t [] QState.outside).2.1.reverse ++ c),
    scan3Aux_append t c [] QState.outside,
    scan3Aux_append ((scan3Aux t [] QState.outside).2.1.reverse) c [] QState.outside,
    scan3_rescan t]
  simp

/-- Feeding fragments through the buffer pipeline from a buffer that holds no
complete line yields exactly the lines and remainder of the concatenated
text. -/
theorem scanChunks_clean :
    ∀ (cs : List (List Char)) (b : List Char), scanBuffer b = ([], b) →
      scanChunks b cs = scanBuffer (b ++ joinChunks cs) := by
  intro cs
  induction cs with
  | nil =>
      intro b hb
      show ([], b) = scanBuffer (b ++ joinChunks [])
      rw [show joinChunks [] = [] from rfl, List.append_nil, hb]
  | cons c cs ih =>
      intro b hb
      have hrec := ih (scanBuffer (b ++ c)).2 (scanBuffer_remainder (b ++ c))
      show ((scanBuffer (b ++ c)).1 ++ (scanChunks (scanBuffer (b ++ c)).2 cs).1,
            (scanChunks (scanBuffer (b ++ c)).2 cs).2) = _
      rw [hrec, show joinChunks (c :: cs) = c ++ joinChunks cs from rfl,
        ← List.append_assoc, scanBuffer_step (b ++ c) (joinChunks cs)]

/-! ## Stream state lemmas -/

theorem StreamState.ext' {s t : StreamState}
    (h1 : s.headers = t.headers) (h2 : s.lineNum = t.lineNum)
    (h3 : s.rowNum = t.rowNum) (h4 : s.buffer = t.buffer)
    (h5 : s.bytesProcessed = t.bytesProcessed)
    (h6 : s.lastProgressRow = t.lastProgressRow) (h7 : s.aborted = t.aborted)
    (h8 : s.headersValidated = t.headersValidated) (h9 : s.hasError = t.hasError) :
    s = t := by
  cases s
  cases t
  simp_all

theorem maybeEmitProgress_preserve (o : CSVStreamOptions) (s : StreamState) :
    (maybeEmitProgress o s).1.buffer = s.buffer ∧
    (maybeEmitProgress o s).1.bytesProcessed = s.bytesProcessed ∧
    (maybeEmitProgress o s).1.aborted = s.aborted ∧
    (maybeEmitProgress o s).1.hasError = s.hasError := by
  unfold maybeEmitProgress
  by_cases h0 : o.progressInterval = 0
  · simp [h0]
  · by_cases h1 : o.progressInterval ≤ s.rowNum - s.lastProgressRow <;> simp [h0, h1]

theorem rowPhase_preserve (o : CSVStreamOptions) (s : StreamState)
    (line : List Char) (fields : List (List Char)) :
    (rowPhase o s line fields).1.buffer = s.buffer ∧
    (rowPhase o s line fields).1.bytesProcessed = s.bytesProcessed ∧
    (rowPhase o s line fields).1.aborted = s.aborted := by
  unfold rowPhase
  by_cases hs : o.strictColumns = true ∧ hasNonEmptyExtra s.headers fields = true
  · simp [hs]
  · have hp := maybeEmitProgress_preserve o { s with rowNum := s.rowNum + 1 }
    simp only [if_neg hs]
    exact ⟨hp.1, hp.2.1, hp.2.2.1⟩

theorem processLine_preserve (o : CSVStreamOptions) (s : StreamState) (l : List Char) :
    (processLine o s l).1.buffer = s.buffer ∧
    (processLine o s l).1.bytesProcessed = s.bytesProcessed ∧
    (processLine o s l).1.aborted = s.aborted := by
  unfold processLine
  by_cases hb : jsTrim (dropTrailingCR l) = []
  · simp [hb]
  · simp only [if_neg hb]
    rcases hp : parseCsvLine (dropTrailingCR l) o.delimiter with _ | fields
    · simp
    · by_cases hh : o.expectHeaders = true ∧ s.headersValidated = false
      · simp only [if_pos hh]
        rcases o.headers with _ | optHeaders
        · simp
        · by_cases hm : headersMatch (optHeaders.map normalizeHeader)
              (parseHeaderFields fields) = true <;> simp [hm]
      · simp only [if_neg hh]
        exact rowPhase_preserve o { s with lineNum := s.lineNum + 1 } (dropTrailingCR l) fields

theorem maybeEmitProgress_cong (o : CSVStreamOptions) (s : StreamState)
    (b : List Char) (m : Nat) :
    (maybeEmitProgress o { s with buffer := b, bytesProcessed := m }).1 =
      { (maybeEmitProgress o s).1 with buffer := b, bytesProcessed := m } ∧
    nonProgress (maybeEmitProgress o { s with buffer := b, bytesProcessed := m }).2 =
      nonProgress (maybeEmitProgress o s).2 := by
  unfold maybeEmitProgress
  by_cases h0 : o.progressInterval = 0
  · simp [h0]
  · by_cases h1 : o.progressInterval ≤ s.rowNum - s.lastProgressRow <;>
      simp [h0, h1, nonProgress, isProgressEvt]

theorem rowPhase_cong (o : CSVStreamOptions) (s : StreamState)
    (line : List Char) (fields : List (List Char)) (b : List Char) (m : Nat) :
    (rowPhase o { s with buffer := b, bytesProcessed := m } line fields).1 =
      { (rowPhase o s line fields).1 with buffer := b, bytesProcessed := m } ∧
    nonProgress (rowPhase o { s with buffer := b, bytesProcessed := m } line fields).2 =
      nonProgress (rowPhase o s line fields).2 := by
  unfold rowPhase maybeEmitProgress
  by_cases hs : o.strictColumns = true ∧ hasNonEmptyExtra s.headers fields = true
  · simp [hs]
  · by_cases h0 : o.progressInterval = 0
    · simp [hs, h0, nonProgress, isProgressEvt]
    · by_cases h1 : o.progressInterval ≤ s.rowNum + 1 - s.lastProgressRow
      · simp [hs, h0, h1, nonProgress, isProgressEvt]
      · simp [hs, h0, h1, nonProgress, isProgressEvt]

theorem processLine_cong (o : CSVStreamOptions) (s : StreamState) (l : List Char)
    (b : List Char) (m : Nat) :
    (processLine o { s with buffer := b, bytesProcessed := m } l).1 =
      { (processLine o s l).1 with buffer := b, bytesProcessed := m } ∧
    nonProgress (processLine o { s with buffer := b, bytesProcessed := m } l).2 =
      nonProgress (processLine o s l).2 := by
  unfold processLine
  by_cases hb : jsTrim (dropTrailingCR l) = []
  · simp [hb]
  · simp only [if_neg hb]
    rcases hp : parseCsvLine (dropTrailingCR l) o.delimiter with _ | fields
    · simp
    · by_cases hh : o.expectHeaders = true ∧ s.headersValidated = false
      · have hh' : o.expectHeaders = true ∧
            ({ s with buffer := b, bytesProcessed := m } : StreamState).headersValidated = false := by
          simpa using hh
        simp only [if_pos hh, if_pos hh']
        rcases o.headers with _ | optHeaders
        · simp
        · by_cases hm : headersMatch (optHeaders.map normalizeHeader)
              (parseHeaderFields fields) = true <;> simp [hm]
      · have hh' : ¬(o.expectHeaders = true ∧
            ({ s with buffer := b, bytesProcessed := m } : StreamState).headersValidated = false) := by
          simpa using hh
        simp only [if_neg hh, if_neg hh']
        exact rowPhase_cong o { s with lineNum := s.lineNum + 1 } (dropTrailingCR l) fields b m

theorem runLinesStop_preserve (o : CSVStreamOptions) (ls : List (List Char)) :
    ∀ s : StreamState,
      (runLinesStop o s ls).state.buffer = s.buffer ∧
      (runLinesStop o s ls).state.bytesProcessed = s.bytesProcessed ∧
      (runLinesStop o s ls).state.aborted = s.aborted := by
  induction ls with
  | nil => intro s; simp [runLinesStop]
  | cons l ls ih =>
      intro s
      by_cases h : s.aborted = true ∨ s.hasError = true
      · simp [runLinesStop, h]
      · have hp := processLine_preserve o s l
        have hr := ih (processLine o s l).1
        simp only [runLinesStop, if_neg h]
        exact ⟨hr.1.trans hp.1, (hr.2.1).trans hp.2.1, (hr.2.2).trans hp.2.2⟩

theorem runLinesStop_stopped (o : CSVStreamOptions) (ls : List (List Char)) :
    ∀ s : StreamState, (runLinesStop o s ls).stopped = true →
      (runLinesStop o s ls).state.aborted = true ∨
      (runLinesStop o s ls).state.hasError = true := by
  induction ls with
  | nil => intro s h; simp [runLinesStop] at h
  | cons l ls ih =>
      intro s
      by_cases h : s.aborted = true ∨ s.hasError = true
      · intro _
        simp only [runLinesStop, if_pos h]
        exact h
      · intro hstop
        simp only [runLinesStop, if_neg h] at hstop ⊢
        exact ih (processLine o s l).1 hstop

theorem runLinesStop_absorb (o : CSVStreamOptions) (s : StreamState)
    (ls : List (List Char)) (h : s.aborted = true ∨ s.hasError = true) :
    (runLinesStop o s ls).state = s ∧ (runLinesStop o s ls).events = [] := by
  cases ls with
  | nil => simp [runLinesStop]
  | cons l ls => simp [runLinesStop, h]

theorem runLinesStop_append (o : CSVStreamOptions) (L1 L2 : List (List Char)) :
    ∀ s : StreamState,
      runLinesStop o s (L1 ++ L2) =
        if (runLinesStop o s L1).stopped = true then runLinesStop o s L1
        else
          ⟨(runLinesStop o (runLinesStop o s L1).state L2).state,
           (runLinesStop o s L1).events ++
             (runLinesStop o (runLinesStop o s L1).state L2).events,
           (runLinesStop o (runLinesStop o s L1).state L2).stopped⟩ := by
  induction L1 with
  | nil => intro s; simp [runLinesStop]
  | cons l L1 ih =>
      intro s
      by_cases h : s.aborted = true ∨ s.hasError = true
      · simp [runLinesStop, h]
      · simp only [List.cons_append, runLinesStop, List.append_eq, if_neg h]
        rw [ih (processLine o s l).1]
        by_cases hstop : (runLinesStop o (processLine o s l).1 L1).stopped = true <;>
          simp [hstop]

theorem runLinesStop_cong (o : CSVStreamOptions) (ls : List (List Char)) :
    ∀ (s : StreamState) (b : List Char) (m : Nat),
      (runLinesStop o { s with buffer := b, bytesProcessed := m } ls).state =
        { (runLinesStop o s ls).state with buffer := b, bytesProcessed := m } ∧
      nonProgress (runLinesStop o { s with buffer := b, bytesProcessed := m } ls).events =
        nonProgress (runLinesStop o s ls).events ∧
      (runLinesStop o { s with buffer := b, bytesProcessed := m } ls).stopped =
        (runLinesStop o s ls).stopped := by
  induction ls with
  | nil => intro s b m; simp [runLinesStop]
  | cons l ls ih =>
      intro s b m
      by_cases h : s.aborted = true ∨ s.hasError = true
      · have h' : ({ s with buffer := b, bytesProcessed := m } : StreamState).aborted = true ∨
            ({ s with buffer := b, bytesProcessed := m } : StreamState).hasError = true := by
          simpa using h
        simp [runLinesStop, h, h']
      · have h' : ¬(({ s with buffer := b, bytesProcessed := m } : StreamState).aborted = true ∨
            ({ s with buffer := b, bytesProcessed := m } : StreamState).hasError = true) := by
          simpa using h
        have hpl := processLine_cong o s l b m
        have hrec := ih (processLine o s l).1 b m
        simp only [runLinesStop, if_neg h, if_neg h']
        refine ⟨?_, ?_, ?_⟩
        · rw [hpl.1]
          exact hrec.1
        · rw [hpl.1]
          simp only [nonProgress, List.filter_append] at hpl hrec ⊢
          rw [hpl.2, hrec.2.1]
        · rw [hpl.1]
          exact hrec.2.2

theorem nonProgress_append (a b : List CSVEvent) :
    nonProgress (a ++ b) = nonProgress a ++ nonProgress b := by
  simp [nonProgress, List.filter_append]

theorem transform_absorb (o : CSVStreamOptions) (s : StreamState) (c : List Char)
    (h : s.aborted = true ∨ s.hasError = true) : transform o s c = (s, []) := by
  simp [transform, h]

theorem transform_proceed (o : CSVStreamOptions) (s : StreamState) (c : List Char)
    (h : ¬(s.aborted = true ∨ s.hasError = true)) :
    transform o s c =
      processBuffer o
        { s with bytesProcessed := s.bytesProcessed + utf8Length c
                 buffer := s.buffer ++ c } := by
  simp [transform, h]

theorem flush_absorb (o : CSVStreamOptions) (s : StreamState)
    (h : s.aborted = true ∨ s.hasError = true) : flush o s = (s, []) := by
  simp [flush, h]

theorem runChunks_absorb (o : CSVStreamOptions) (cs : List (List Char)) :
    ∀ s : StreamState, s.aborted = true ∨ s.hasError = true →
      runChunks o s cs = (s, []) := by
  induction cs with
  | nil => intro s _; simp [runChunks]
  | cons c cs ih =>
      intro s h
      simp [runChunks, transform_absorb o s c h, ih s h]

theorem runChunks_append (o : CSVStreamOptions) (cs1 cs2 : List (List Char)) :
    ∀ s : StreamState,
      runChunks o s (cs1 ++ cs2) =
        ((runChunks o (runChunks o s cs1).1 cs2).1,
         (runChunks o s cs1).2 ++ (runChunks o (runChunks o s cs1).1 cs2).2) := by
  induction cs1 with
  | nil => intro s; simp [runChunks]
  | cons c cs1 ih =>
      intro s
      simp only [List.cons_append, runChunks, List.append_eq]
      rw [ih (transform o s c).1]
      simp [List.append_assoc]

theorem joinChunks_foldr (cs : List (List Char)) :
    ∀ suffix : List Char, cs.foldr (fun a b => a ++ b) suffix = joinChunks cs ++ suffix := by
  induction cs with
  | nil => intro suffix; simp [joinChunks]
  | cons c cs ih =>
      intro suffix
      have hj : joinChunks (c :: cs) = c ++ joinChunks cs := rfl
      have hl : (c :: cs).foldr (fun a b => a ++ b) suffix =
          c ++ cs.foldr (fun a b => a ++ b) suffix := rfl
      rw [hl, ih suffix, hj, List.append_assoc]

theorem joinChunks_append_singleton (cs : List (List Char)) (c : List Char) :
    joinChunks (cs ++ [c]) = joinChunks cs ++ c := by
  unfold joinChunks
  rw [List.foldr_append]
  simp only [List.foldr_cons, List.foldr_nil, List.append_nil]
  exact joinChunks_foldr cs c

/-- The canonical quote-aware decomposition of a whole input text into
complete lines and an unterminated remainder. -/
def canonScan (t : List Char) : List (List Char) × List Char × QState :=
  scan3Aux t [] QState.outside

/-- The canonical run: process the complete lines of the whole text in order
from the initial state, honouring the stop checks. -/
def canonRun (o : CSVStreamOptions) (t : List Char) : LoopResult :=
  runLinesStop o (initState o) (canonScan t).1

theorem canonRun_aborted (o : CSVStreamOptions) (t : List Char) :
    (canonRun o t).state.aborted = false := by
  have := (runLinesStop_preserve o (canonScan t).1 (initState o)).2.2
  simpa [canonRun, initState] using this

theorem canonRun_not_stopped (o : CSVStreamOptions) (t : List Char)
    (h : (canonRun o t).state.hasError = false) : (canonRun o t).stopped = false := by
  by_contra hs
  have hs' : (canonRun o t).stopped = true := by simpa using hs
  rcases runLinesStop_stopped o (canonScan t).1 (initState o) hs' with ha | he
  · rw [show runLinesStop o (initState o) (canonScan t).1 = canonRun o t from rfl,
      canonRun_aborted] at ha
    exact absurd ha (by simp)
  · rw [show runLinesStop o (initState o) (canonScan t).1 = canonRun o t from rfl, h] at he
    exact absurd he (by simp)

/-- The relation between a fragmented delivery's outcome and the canonical
run on the whole text: same non-progress events, same state apart from the
byte counter, and — as long as no error occurred — the buffer holds exactly
the canonical unterminated remainder. -/
def matchesCanon (o : CSVStreamOptions) (F : StreamState × List CSVEvent)
    (t : List Char) : Prop :=
  nonProgress F.2 = nonProgress (canonRun o t).events ∧
  F.1.aborted = false ∧
  F.1.headers = (canonRun o t).state.headers ∧
  F.1.lineNum = (canonRun o t).state.lineNum ∧
  F.1.rowNum = (canonRun o t).state.rowNum ∧
  F.1.lastProgressRow = (canonRun o t).state.lastProgressRow ∧
  F.1.headersValidated = (canonRun o t).state.headersValidated ∧
  F.1.hasError = (canonRun o t).state.hasError ∧
  ((canonRun o t).state.hasError = false → F.1.buffer = (canonScan t).2.1.reverse)

theorem processBuffer_events (o : CSVStreamOptions) (s : StreamState) :
    (processBuffer o s).2 = (runLinesStop o s (scanBuffer s.buffer).1).events := rfl

theorem processBuffer_state_comp (o : CSVStreamOptions) (s : StreamState) :
    (processBuffer o s).1.headers =
      (runLinesStop o s (scanBuffer s.buffer).1).state.headers ∧
    (processBuffer o s).1.lineNum =
      (runLinesStop o s (scanBuffer s.buffer).1).state.lineNum ∧
    (processBuffer o s).1.rowNum =
      (runLinesStop o s (scanBuffer s.buffer).1).state.rowNum ∧
    (processBuffer o s).1.lastProgressRow =
      (runLinesStop o s (scanBuffer s.buffer).1).state.lastProgressRow ∧
    (processBuffer o s).1.headersValidated =
      (runLinesStop o s (scanBuffer s.buffer).1).state.headersValidated ∧
    (processBuffer o s).1.hasError =
      (runLinesStop o s (scanBuffer s.buffer).1).state.hasError ∧
    (processBuffer o s).1.aborted =
      (runLinesStop o s (scanBuffer s.buffer).1).state.aborted ∧
    (processBuffer o s).1.bytesProcessed =
      (runLinesStop o s (scanBuffer s.buffer).1).state.bytesProcessed := by
  unfold processBuffer
  by_cases h : (runLinesStop o s (scanBuffer s.buffer).1).stopped = true <;> simp [h]

theorem processBuffer_buffer_of_not_stopped (o : CSVStreamOptions) (s : StreamState)
    (h : (runLinesStop o s (scanBuffer s.buffer).1).stopped = false) :
    (processBuffer o s).1.buffer = (scanBuffer s.buffer).2 := by
  unfold processBuffer
  simp [h]

theorem runLinesStop_not_stopped_of_ok (o : CSVStreamOptions) (ls : List (List Char))
    (s : StreamState) (hab : s.aborted = false)
    (he : (runLinesStop o s ls).state.hasError = false) :
    (runLinesStop o s ls).stopped = false := by
  by_contra hs
  have hs' : (runLinesStop o s ls).stopped = true := by simpa using hs
  rcases runLinesStop_stopped o ls s hs' with ha | hhe
  · rw [(runLinesStop_preserve o ls s).2.2, hab] at ha
    exact absurd ha (by simp)
  · rw [he] at hhe
    exact absurd hhe (by simp)

/-- Main fragmentation lemma: feeding any chunk sequence reproduces, up to
progress events and the byte counter, the canonical run on the concatenated
text. -/
theorem runChunks_canonical (o : CSVStreamOptions) :
    ∀ chunks : List (List Char),
      matchesCanon o (runChunks o (initState o) chunks) (joinChunks chunks) := by
  intro chunks
  induction chunks using List.reverseRecOn with
  | nil =>
      refine ⟨?_, ?_, ?_, ?_, ?_, ?_, ?_, ?_, ?_⟩ <;>
        simp [canonRun, canonScan, joinChunks, runChunks, runLinesStop, scan3Aux,
          nonProgress, initState]
  | append_singleton cs c ih =>
      obtain ⟨ihev, ihab, ihh, ihln, ihrn, ihlp, ihhv, ihhe, ihbuf⟩ := ih
      rw [joinChunks_append_singleton]
      have hF2 : runChunks o (initState o) (cs ++ [c]) =
          ((transform o (runChunks o (initState o) cs).1 c).1,
           (runChunks o (initState o) cs).2 ++
             (transform o (runChunks o (initState o) cs).1 c).2) := by
        rw [runChunks_append o cs [c] (initState o)]
        simp [runChunks]
      rw [hF2]
      unfold matchesCanon
      have hscan2 : canonScan (joinChunks cs ++ c) =
          ((canonScan (joinChunks cs)).1 ++
             (scan3Aux c (canonScan (joinChunks cs)).2.1 (canonScan (joinChunks cs)).2.2).1,
           (scan3Aux c (canonScan (joinChunks cs)).2.1 (canonScan (joinChunks cs)).2.2).2) := by
        unfold canonScan
        exact scan3Aux_append (joinChunks cs) c [] QState.outside
      have hR2 : canonRun o (joinChunks cs ++ c) =
          if (canonRun o (joinChunks cs)).stopped = true then canonRun o (joinChunks cs)
          else
            ⟨(runLinesStop o (canonRun o (joinChunks cs)).state
                (scan3Aux c (canonScan (joinChunks cs)).2.1 (canonScan (joinChunks cs)).2.2).1).state,
             (canonRun o (joinChunks cs)).events ++
               (runLinesStop o (canonRun o (joinChunks cs)).state
                  (scan3Aux c (canonScan (joinChunks cs)).2.1 (canonScan (joinChunks cs)).2.2).1).events,
             (runLinesStop o (canonRun o (joinChunks cs)).state
                (scan3Aux c (canonScan (joinChunks cs)).2.1 (canonScan (joinChunks cs)).2.2).1).stopped⟩ := by
        show runLinesStop o (initState o) (canonScan (joinChunks cs ++ c)).1 = _
        rw [hscan2]
        exact runLinesStop_append o (canonScan (joinChunks cs)).1
          (scan3Aux c (canonScan (joinChunks cs)).2.1 (canonScan (joinChunks cs)).2.2).1
          (initState o)
      by_cases herr : (canonRun o (joinChunks cs)).state.hasError = true
      · -- the canonical run already errored within the previous chunks
        have hFerr : (runChunks o (initState o) cs).1.hasError = true := by
          rw [ihhe]; exact herr
        have htr : transform o (runChunks o (initState o) cs).1 c =
            ((runChunks o (initState o) cs).1, []) :=
          transform_absorb _ _ _ (Or.inr hFerr)
        rw [htr, hR2]
        have habs := runLinesStop_absorb o (canonRun o (joinChunks cs)).state
          (scan3Aux c (canonScan (joinChunks cs)).2.1 (canonScan (joinChunks cs)).2.2).1
          (Or.inr herr)
        by_cases hstop : (canonRun o (joinChunks cs)).stopped = true
        · rw [if_pos hstop]
          exact ⟨by simpa using ihev, ihab, ihh, ihln, ihrn, ihlp, ihhv, ihhe,
            fun h => absurd herr (by simp [h])⟩
        · rw [if_neg hstop]
          refine ⟨?_, ihab, ?_, ?_, ?_, ?_, ?_, ?_, ?_⟩
          · simp only [habs.1, habs.2, List.append_nil]
            simpa using ihev
          · simp only [habs.1]; exact ihh
          · simp only [habs.1]; exact ihln
          · simp only [habs.1]; exact ihrn
          · simp only [habs.1]; exact ihlp
          · simp only [habs.1]; exact ihhv
          · simp only [habs.1]; exact ihhe
          · simp only [habs.1]
            intro h
            exact absurd herr (by simp [h])
      · -- no error yet: the new chunk is scanned as the canonical continuation
        have herr' : (canonRun o (joinChunks cs)).state.hasError = false := by
          simpa using herr
        have hstop : (canonRun o (joinChunks cs)).stopped = false :=
          canonRun_not_stopped o (joinChunks cs) herr'
        have hFhe : (runChunks o (initState o) cs).1.hasError = false :=
          ihhe.trans herr'
        have hnotabs : ¬((runChunks o (initState o) cs).1.aborted = true ∨
            (runChunks o (initState o) cs).1.hasError = true) := by
          simp [ihab, hFhe]
        have hsplus : ({ (runChunks o (initState o) cs).1 with
              bytesProcessed :=
                (runChunks o (initState o) cs).1.bytesProcessed + utf8Length c
              buffer := (runChunks o (initState o) cs).1.buffer ++ c } : StreamState) =
            { (canonRun o (joinChunks cs)).state with
              bytesProcessed :=
                (runChunks o (initState o) cs).1.bytesProcessed + utf8Length c
              buffer := (canonScan (joinChunks cs)).2.1.reverse ++ c } := by
          apply StreamState.ext' <;>
            simp [ihh, ihln, ihrn, ihlp, ihhv, ihhe, ihab, canonRun_aborted, ihbuf herr']
        have hTbody : transform o (runChunks o (initState o) cs).1 c =
            processBuffer o
              { (canonRun o (joinChunks cs)).state with
                bytesProcessed :=
                  (runChunks o (initState o) cs).1.bytesProcessed + utf8Length c
                buffer := (canonScan (joinChunks cs)).2.1.reverse ++ c } := by
          rw [transform_proceed o _ c hnotabs, hsplus]
        have hscanned : scanBuffer ((canonScan (joinChunks cs)).2.1.reverse ++ c) =
            ((scan3Aux c (canonScan (joinChunks cs)).2.1 (canonScan (joinChunks cs)).2.2).1,
             (scan3Aux c (canonScan (joinChunks cs)).2.1
                (canonScan (joinChunks cs)).2.2).2.1.reverse) := by
          rw [scanBuffer_eq_scan3]
          rw [scan3Aux_append ((canonScan (joinChunks cs)).2.1.reverse) c [] QState.outside]
          rw [show scan3Aux (canonScan (joinChunks cs)).2.1.reverse [] QState.outside =
              ([], (canonScan (joinChunks cs)).2.1, (canonScan (joinChunks cs)).2.2) from
            scan3_rescan (joinChunks cs)]
          simp
        have hsc1 : (scanBuffer ({ (canonRun o (joinChunks cs)).state with
              bytesProcessed :=
                (runChunks o (initState o) cs).1.bytesProcessed + utf8Length c
              buffer := (canonScan (joinChunks cs)).2.1.reverse ++ c } : StreamState).buffer).1 =
            (scan3Aux c (canonScan (joinChunks cs)).2.1 (canonScan (joinChunks cs)).2.2).1 := by
          rw [show ({ (canonRun o (joinChunks cs)).state with
              bytesProcessed :=
                (runChunks o (initState o) cs).1.bytesProcessed + utf8Length c
              buffer := (canonScan (joinChunks cs)).2.1.reverse ++ c } : StreamState).buffer =
              (canonScan (joinChunks cs)).2.1.reverse ++ c from rfl, hscanned]
        have hsc2 : (scanBuffer ({ (canonRun o (joinChunks cs)).state with
              bytesProcessed :=
                (runChunks o (initState o) cs).1.bytesProcessed + utf8Length c
              buffer := (canonScan (joinChunks cs)).2.1.reverse ++ c } : StreamState).buffer).2 =
            (scan3Aux c (canonScan (joinChunks cs)).2.1
              (canonScan (joinChunks cs)).2.2).2.1.reverse := by
          rw [show ({ (canonRun o (joinChunks cs)).state with
              bytesProcessed :=
                (runChunks o (initState o) cs).1.bytesProcessed + utf8Length c
              buffer := (canonScan (joinChunks cs)).2.1.reverse ++ c } : StreamState).buffer =
              (canonScan (joinChunks cs)).2.1.reverse ++ c from rfl, hscanned]
        have hcg := runLinesStop_cong o
          (scan3Aux c (canonScan (joinChunks cs)).2.1 (canonScan (joinChunks cs)).2.2).1
          (canonRun o (joinChunks cs)).state
          ((canonScan (joinChunks cs)).2.1.reverse ++ c)
          ((runChunks o (initState o) cs).1.bytesProcessed + utf8Length c)
        have hcomp := processBuffer_state_comp o
          { (canonRun o (joinChunks cs)).state with
            bytesProcessed :=
              (runChunks o (initState o) cs).1.bytesProcessed + utf8Length c
            buffer := (canonScan (joinChunks cs)).2.1.reverse ++ c }
        rw [hTbody, hR2, if_neg (by simp [hstop])]
        dsimp only
        refine ⟨?_, ?_, ?_, ?_, ?_, ?_, ?_, ?_, ?_⟩
        · rw [processBuffer_events, hsc1, nonProgress_append, nonProgress_append,
            ihev, hcg.2.1]
        · rw [hcomp.2.2.2.2.2.2.1, hsc1,
            (runLinesStop_preserve o
              (scan3Aux c (canonScan (joinChunks cs)).2.1 (canonScan (joinChunks cs)).2.2).1
              _).2.2]
          exact canonRun_aborted o (joinChunks cs)
        · rw [hcomp.1, hsc1, hcg.1]
        · rw [hcomp.2.1, hsc1, hcg.1]
        · rw [hcomp.2.2.1, hsc1, hcg.1]
        · rw [hcomp.2.2.2.1, hsc1, hcg.1]
        · rw [hcomp.2.2.2.2.1, hsc1, hcg.1]
        · rw [hcomp.2.2.2.2.2.1, hsc1, hcg.1]
        · intro h9
          have hr2stop : (runLinesStop o (canonRun o (joinChunks cs)).state
              (scan3Aux c (canonScan (joinChunks cs)).2.1
                (canonScan (joinChunks cs)).2.2).1).stopped = false :=
            runLinesStop_not_stopped_of_ok o _ _ (canonRun_aborted o (joinChunks cs)) h9
          have hspstop : (runLinesStop o
              ({ (canonRun o (joinChunks cs)).state with
                 bytesProcessed :=
                   (runChunks o (initState o) cs).1.bytesProcessed + utf8Length c
                 buffer := (canonScan (joinChunks cs)).2.1.reverse ++ c } : StreamState)
              (scanBuffer ({ (canonRun o (joinChunks cs)).state with
                 bytesProcessed :=
                   (runChunks o (initState o) cs).1.bytesProcessed + utf8Length c
                 buffer := (canonScan (joinChunks cs)).2.1.reverse ++ c } :
                   StreamState).buffer).1).stopped = false := by
            rw [hsc1, hcg.2.2]
            exact hr2stop
          rw [processBuffer_buffer_of_not_stopped o _ hspstop, hsc2, hscan2]

theorem joinChunks_single (t : List Char) : joinChunks [t] = t := by
  simp [joinChunks]

/-- The non-progress events the end-of-input flush contributes, computed from
the canonical run on the whole text. -/
def canonFlush (o : CSVStreamOptions) (t : List Char) : List CSVEvent :=
  if (canonRun o t).state.hasError = true then []
  else if (canonScan t).2.1.reverse ≠ [] then
    nonProgress (processLine o (canonRun o t).state (canonScan t).2.1.reverse).2 ++
      [CSVEvent.endEvt
        (processLine o (canonRun o t).state (canonScan t).2.1.reverse).1.rowNum
        (processLine o (canonRun o t).state (canonScan t).2.1.reverse).1.lineNum]
  else
    [CSVEvent.endEvt (canonRun o t).state.rowNum (canonRun o t).state.lineNum]

theorem runCSV_events_canonical (o : CSVStreamOptions) (chunks : List (List Char)) :
    nonProgress (runCSV o chunks).2 =
      nonProgress (canonRun o (joinChunks chunks)).events ++
        canonFlush o (joinChunks chunks) := by
  obtain ⟨ihev, ihab, ihh, ihln, ihrn, ihlp, ihhv, ihhe, ihbuf⟩ :=
    runChunks_canonical o chunks
  show nonProgress ((runChunks o (initState o) chunks).2 ++
    (flush o (runChunks o (initState o) chunks).1).2) = _
  rw [nonProgress_append, ihev]
  congr 1
  unfold canonFlush
  by_cases herr : (canonRun o (joinChunks chunks)).state.hasError = true
  · rw [if_pos herr]
    have : flush o (runChunks o (initState o) chunks).1 =
        ((runChunks o (initState o) chunks).1, []) :=
      flush_absorb o _ (Or.inr (ihhe.trans herr))
    rw [this]
    simp [nonProgress]
  · have herr' : (canonRun o (joinChunks chunks)).state.hasError = false := by
      simpa using herr
    rw [if_neg herr]
    have hFeq : (runChunks o (initState o) chunks).1 =
        { (canonRun o (joinChunks chunks)).state with
          buffer := (canonScan (joinChunks chunks)).2.1.reverse
          bytesProcessed := (runChunks o (initState o) chunks).1.bytesProcessed } := by
      apply StreamState.ext' <;>
        simp [ihh, ihln, ihrn, ihlp, ihhv, ihhe, ihab, canonRun_aborted, ihbuf herr']
    rw [hFeq]
    unfold flush
    rw [if_neg (by simp [canonRun_aborted, herr'])]
    by_cases hbuf : (canonScan (joinChunks chunks)).2.1.reverse = []
    · rw [if_neg (by simp [hbuf])]
      simp only [hbuf, if_neg (by simp : ¬(([] : List Char) ≠ []))]
      simp [nonProgress, isProgressEvt]
    · rw [if_pos (by simp [hbuf])]
      have hpl := processLine_cong o (canonRun o (joinChunks chunks)).state
        ((canonScan (joinChunks chunks)).2.1.reverse)
        ((canonScan (joinChunks chunks)).2.1.reverse)
        (runChunks o (initState o) chunks).1.bytesProcessed
      dsimp only
      rw [nonProgress_append, hpl.2, hpl.1]
      simp [nonProgress, isProgressEvt]
      rw [if_neg (by simpa [List.reverse_eq_nil_iff] using hbuf)]

/-- Fragmented and single-chunk deliveries of the same text produce the same
events apart from progress notifications. -/
theorem runCSV_nonProgress_eq_single (o : CSVStreamOptions) (chunks : List (List Char)) :
    nonProgress (runCSV o chunks).2 = nonProgress (runCSV o [joinChunks chunks]).2 := by
  rw [runCSV_events_canonical o chunks, runCSV_events_canonical o [joinChunks chunks],
    joinChunks_single]

theorem filter_csvrow_nonProgress (evs : List CSVEvent) :
    (nonProgress evs).filter isCsvrowEvt = evs.filter isCsvrowEvt := by
  induction evs with
  | nil => simp [nonProgress]
  | cons e evs ih => cases e <;> simp [nonProgress, isCsvrowEvt, isProgressEvt] at ih ⊢ <;>
      simpa [nonProgress] using ih

theorem hasError_silent (o : CSVStreamOptions) (s : StreamState) (h : s.hasError = true)
    (cs : List (List Char)) :
    (runChunks o s cs).2 = [] ∧ (flush o (runChunks o s cs).1).2 = [] := by
  have hr := runChunks_absorb o cs s (Or.inr h)
  rw [hr]
  exact ⟨rfl, by rw [flush_absorb o s (Or.inr h)]⟩

theorem runOps_append (o : CSVStreamOptions) (ops1 ops2 : List StreamOp) :
    ∀ s : StreamState,
      runOps o s (ops1 ++ ops2) =
        ((runOps o (runOps o s ops1).1 ops2).1,
         (runOps o s ops1).2 ++ (runOps o (runOps o s ops1).1 ops2).2) := by
  induction ops1 with
  | nil => intro s; simp [runOps]
  | cons op ops1 ih =>
      intro s
      simp only [List.cons_append, runOps, List.append_eq]
      rw [ih (applyOp o s op).1]
      simp [List.append_assoc]

theorem applyOp_aborted (o : CSVStreamOptions) (s : StreamState) (op : StreamOp)
    (h : s.aborted = true) :
    (applyOp o s op).1.aborted = true ∧ (applyOp o s op).2 = [] := by
  cases op with
  | chunk c =>
      rw [show applyOp o s (StreamOp.chunk c) = transform o s c from rfl,
        transform_absorb o s c (Or.inl h)]
      exact ⟨h, rfl⟩
  | abortSignal => exact ⟨rfl, rfl⟩

theorem runOps_aborted_silent (o : CSVStreamOptions) (ops : List StreamOp) :
    ∀ s : StreamState, s.aborted = true →
      (runOps o s ops).2 = [] ∧ (runOps o s ops).1.aborted = true := by
  induction ops with
  | nil => intro s h; exact ⟨rfl, h⟩
  | cons op ops ih =>
      intro s h
      have hop := applyOp_aborted o s op h
      have hrec := ih (applyOp o s op).1 hop.1
      simp only [runOps]
      exact ⟨by rw [hop.2, hrec.1]; rfl, hrec.2⟩

theorem headersMatch_iff (expected parsedHeaders : List (List Char)) :
    headersMatch expected parsedHeaders = true ↔ expected = parsedHeaders := by
  unfold headersMatch
  constructor
  · intro h
    simp only [Bool.and_eq_true, beq_iff_eq, List.all_eq_true] at h
    obtain ⟨hlen, hall⟩ := h
    apply List.ext_getElem hlen
    intro i h1 h2
    have hmem : (expected[i], parsedHeaders[i]) ∈ expected.zip parsedHeaders := by
      rw [List.mem_iff_getElem]
      exact ⟨i, by rw [List.length_zip]; omega, by simp [List.getElem_zip]⟩
    simpa using hall _ hmem
  · intro h
    subst h
    simp only [Bool.and_eq_true, beq_iff_eq, List.all_eq_true]
    refine ⟨trivial, ?_⟩
    intro p hp
    rcases List.mem_iff_getElem.mp hp with ⟨i, hi, hpi⟩
    rw [List.length_zip, Nat.min_self] at hi
    rw [← hpi]
    simp [List.getElem_zip]

theorem processLine_header_validate (o : CSVStreamOptions) (s : StreamState)
    (rawLine : List Char) (exp : List (List Char)) (fs : List (List Char))
    (hexp : o.expectHeaders = true) (hh : o.headers = some exp)
    (hv : s.headersValidated = false)
    (hblank : jsTrim (dropTrailingCR rawLine) ≠ [])
    (hparse : parseCsvLine (dropTrailingCR rawLine) o.delimiter = ParseResult.fields fs) :
    processLine o s rawLine =
      if headersMatch (exp.map normalizeHeader) (parseHeaderFields fs) = true then
        ({ s with lineNum := s.lineNum + 1
                  headersValidated := true
                  headers := some (parseHeaderFields fs) },
         [CSVEvent.headersEvt (parseHeaderFields fs) (s.lineNum + 1)])
      else
        ({ s with lineNum := s.lineNum + 1
                  headersValidated := true
                  hasError := true },
         [CSVEvent.errorEvt CSVErrorType.PARSE_ERROR
            (headerMismatchMessage (exp.map normalizeHeader) (parseHeaderFields fs))
            (s.lineNum + 1) (dropTrailingCR rawLine)]) := by
  unfold processLine
  rw [if_neg hblank, hparse]
  dsimp only
  rw [if_pos (show o.expectHeaders = true ∧
      ({ s with lineNum := s.lineNum + 1 } : StreamState).headersValidated = false from
      ⟨hexp, hv⟩), hh]

theorem processLine_data (o : CSVStreamOptions) (s : StreamState)
    (rawLine : List Char) (fs : List (List Char))
    (hnh : ¬(o.expectHeaders = true ∧ s.headersValidated = false))
    (hblank : jsTrim (dropTrailingCR rawLine) ≠ [])
    (hparse : parseCsvLine (dropTrailingCR rawLine) o.delimiter = ParseResult.fields fs) :
    processLine o s rawLine =
      rowPhase o { s with lineNum := s.lineNum + 1 } (dropTrailingCR rawLine) fs := by
  unfold processLine
  rw [if_neg hblank, hparse]
  dsimp only
  rw [if_neg (show ¬(o.expectHeaders = true ∧
      ({ s with lineNum := s.lineNum + 1 } : StreamState).headersValidated = false) from hnh)]

theorem processLine_blank (o : CSVStreamOptions) (s : StreamState) (rawLine : List Char)
    (hblank : jsTrim (dropTrailingCR rawLine) = []) :
    processLine o s rawLine = ({ s with lineNum := s.lineNum + 1 }, []) := by
  unfold processLine
  rw [if_pos hblank]

theorem processLine_tokenizer_error (o : CSVStreamOptions) (s : StreamState)
    (rawLine : List Char)
    (hblank : jsTrim (dropTrailingCR rawLine) ≠ [])
    (hparse : parseCsvLine (dropTrailingCR rawLine) o.delimiter = ParseResult.error) :
    processLine o s rawLine =
      ({ s with lineNum := s.lineNum + 1
                hasError := true },
       [CSVEvent.errorEvt CSVErrorType.UNBALANCED_QUOTES unbalancedQuotesMessage
          (s.lineNum + 1) (dropTrailingCR rawLine)]) := by
  unfold processLine
  rw [if_neg hblank, hparse]

theorem rowPhase_strict (o : CSVStreamOptions) (s : StreamState) (line : List Char)
    (fs : List (List Char)) (hs2 : List (List Char))
    (hstrict : o.strictColumns = true) (hhs : s.headers = some hs2)
    (hextra : (fs.drop hs2.length).any (fun f => !(jsTrim f).isEmpty) = true) :
    rowPhase o s line fs =
      ({ s with rowNum := s.rowNum + 1
                hasError := true },
       [CSVEvent.errorEvt CSVErrorType.PARSE_ERROR
          (strictColumnsMessage (s.rowNum + 1) fs.length hs2.length) s.lineNum line]) := by
  unfold rowPhase
  rw [if_pos (show o.strictColumns = true ∧
      hasNonEmptyExtra ({ s with rowNum := s.rowNum + 1 } : StreamState).headers fs = true from
      ⟨hstrict, by simpa [hasNonEmptyExtra, hhs] using hextra⟩)]
  simp [headerCount, hhs]

theorem rowPhase_ok (o : CSVStreamOptions) (s : StreamState) (line : List Char)
    (fs : List (List Char))
    (hok : ¬(o.strictColumns = true ∧ hasNonEmptyExtra s.headers fs = true)) :
    rowPhase o s line fs =
      ((maybeEmitProgress o { s with rowNum := s.rowNum + 1 }).1,
       CSVEvent.csvrowEvt (s.rowNum + 1)
         (match s.headers with
          | some hs => buildRowWithHeaders hs fs
          | none => buildRowNumericKeys fs) line fs fs.length ::
         (maybeEmitProgress o { s with rowNum := s.rowNum + 1 }).2) := by
  unfold rowPhase
  rw [if_neg (show ¬(o.strictColumns = true ∧
      hasNonEmptyExtra ({ s with rowNum := s.rowNum + 1 } : StreamState).headers fs = true)
      from hok)]

theorem maybeEmitProgress_filters (o : CSVStreamOptions) (s : StreamState) :
    (maybeEmitProgress o s).2.filter isCsvrowEvt = [] ∧
    (maybeEmitProgress o s).2.filter isErrorEvt = [] := by
  unfold maybeEmitProgress
  by_cases h0 : o.progressInterval = 0
  · simp [h0]
  · by_cases h1 : o.progressInterval ≤ s.rowNum - s.lastProgressRow <;>
      simp [h0, h1, isCsvrowEvt, isErrorEvt]

theorem maybeEmitProgress_counters (o : CSVStreamOptions) (s : StreamState) :
    (maybeEmitProgress o s).1.lineNum = s.lineNum ∧
    (maybeEmitProgress o s).1.rowNum = s.rowNum := by
  unfold maybeEmitProgress
  by_cases h0 : o.progressInterval = 0
  · simp [h0]
  · by_cases h1 : o.progressInterval ≤ s.rowNum - s.lastProgressRow <;> simp [h0, h1]

theorem rowPhase_counters (o : CSVStreamOptions) (s : StreamState) (line : List Char)
    (fs : List (List Char)) :
    (rowPhase o s line fs).1.lineNum = s.lineNum ∧
    (rowPhase o s line fs).1.rowNum = s.rowNum + 1 := by
  unfold rowPhase
  by_cases hs : o.strictColumns = true ∧
      hasNonEmptyExtra ({ s with rowNum := s.rowNum + 1 } : StreamState).headers fs = true
  · simp [hs]
  · have := maybeEmitProgress_counters o { s with rowNum := s.rowNum + 1 }
    simp only [if_neg hs]
    exact ⟨this.1, this.2⟩

theorem processLine_lineNum (o : CSVStreamOptions) (s : StreamState) (l : List Char) :
    (processLine o s l).1.lineNum = s.lineNum + 1 := by
  unfold processLine
  by_cases hb : jsTrim (dropTrailingCR l) = []
  · simp [hb]
  · simp only [if_neg hb]
    rcases hp : parseCsvLine (dropTrailingCR l) o.delimiter with _ | fields
    · simp
    · by_cases hh : o.expectHeaders = true ∧ s.headersValidated = false
      · simp only [if_pos hh]
        rcases o.headers with _ | optHeaders
        · simp
        · by_cases hm : headersMatch (optHeaders.map normalizeHeader)
              (parseHeaderFields fields) = true <;> simp [hm]
      · simp only [if_neg hh]
        exact (rowPhase_counters o { s with lineNum := s.lineNum + 1 }
          (dropTrailingCR l) fields).1

theorem processLine_rowNum (o : CSVStreamOptions) (s : StreamState) (l : List Char) :
    (processLine o s l).1.rowNum =
      if (jsTrim (dropTrailingCR l)).isEmpty = false ∧
         (parseCsvLine (dropTrailingCR l) o.delimiter).isFields = true ∧
         ¬(o.expectHeaders = true ∧ s.headersValidated = false)
      then s.rowNum + 1 else s.rowNum := by
  unfold processLine
  by_cases hb : jsTrim (dropTrailingCR l) = []
  · simp [hb]
  · simp only [if_neg hb]
    rcases hp : parseCsvLine (dropTrailingCR l) o.delimiter with _ | fields
    · simp [ParseResult.isFields]
    · by_cases hh : o.expectHeaders = true ∧ s.headersValidated = false
      · simp only [if_pos hh]
        rcases o.headers with _ | optHeaders
        · simp [hh]
        · by_cases hm : headersMatch (optHeaders.map normalizeHeader)
              (parseHeaderFields fields) = true <;> simp [hm, hh]
      · simp only [if_neg hh]
        have := (rowPhase_counters o { s with lineNum := s.lineNum + 1 }
          (dropTrailingCR l) fields).2
        rw [this]
        rw [if_pos ⟨by simpa using hb, by simp [ParseResult.isFields], hh⟩]

theorem processLine_no_end (o : CSVStreamOptions) (s : StreamState) (l : List Char) :
    (processLine o s l).2.filter isEndEvt = [] := by
  unfold processLine rowPhase maybeEmitProgress
  by_cases hb : jsTrim (dropTrailingCR l) = []
  · simp [hb]
  · simp only [if_neg hb]
    rcases hp : parseCsvLine (dropTrailingCR l) o.delimiter with _ | fields
    · simp [isEndEvt]
    · by_cases hh : o.expectHeaders = true ∧ s.headersValidated = false
      · simp only [if_pos hh]
        rcases o.headers with _ | optHeaders
        · simp [isEndEvt]
        · by_cases hm : headersMatch (optHeaders.map normalizeHeader)
              (parseHeaderFields fields) = true <;> simp [hm, isEndEvt]
      · simp only [if_neg hh]
        by_cases hs : o.strictColumns = true ∧ hasNonEmptyExtra s.headers fields = true
        · simp [hs, isEndEvt]
        · by_cases h0 : o.progressInterval = 0
          · simp [hs, h0, isEndEvt]
          · by_cases h1 : o.progressInterval ≤ s.rowNum + 1 - s.lastProgressRow <;>
              simp [hs, h0, h1, isEndEvt]

theorem runLinesStop_no_end (o : CSVStreamOptions) (ls : List (List Char)) :
    ∀ s : StreamState, (runLinesStop o s ls).events.filter isEndEvt = [] := by
  induction ls with
  | nil => intro s; simp [runLinesStop]
  | cons l ls ih =>
      intro s
      by_cases h : s.aborted = true ∨ s.hasError = true
      · simp [runLinesStop, h]
      · simp only [runLinesStop, if_neg h, List.filter_append]
        rw [processLine_no_end, ih (processLine o s l).1]
        rfl

theorem runOps_no_end (o : CSVStreamOptions) (ops : List StreamOp) :
    ∀ s : StreamState, (runOps o s ops).2.filter isEndEvt = [] := by
  induction ops with
  | nil => intro s; simp [runOps]
  | cons op ops ih =>
      intro s
      simp only [runOps, List.filter_append]
      rw [ih (applyOp o s op).1]
      cases op with
      | chunk c =>
          by_cases h : s.aborted = true ∨ s.hasError = true
          · rw [show applyOp o s (StreamOp.chunk c) = transform o s c from rfl,
              transform_absorb o s c h]
            rfl
          · rw [show applyOp o s (StreamOp.chunk c) = transform o s c from rfl,
              transform_proceed o s c h]
            rw [show (processBuffer o _).2 =
                (runLinesStop o _ (scanBuffer ({ s with
                    bytesProcessed := s.bytesProcessed + utf8Length c
                    buffer := s.buffer ++ c } : StreamState).buffer).1).events from rfl]
            rw [runLinesStop_no_end]
            rfl
      | abortSignal => rfl

/-! ## Claims -/

/-- C1: for every input and every fragmentation, the chunk-boundary line
scanner never ends a logical line at a terminator lying inside a quoted
region: (i) the logical lines produced across any fragment sequence are
exactly those of the whole concatenated text, so fragment boundaries never
move a cut; (ii) every produced line leaves the tokenizer's quote automaton
outside quotes — a terminator inside a quoted field never ends a line — and
hence never tokenizes to UNBALANCED_QUOTES; (iii) the produced lines, each
with its terminator restored, followed by the unterminated remainder,
reassemble the input exactly, so a quoted field is never separated from the
data after its embedded terminator; (iv) in particular, under every
fragmentation of `"a,b\nc",d\n` the quoted cell containing `a,b\nc` is
tokenized as that one field intact. -/
theorem claim_C1 :
    (∀ chunks : List (List Char),
       scanChunks [] chunks = scanBuffer (joinChunks chunks)) ∧
    (∀ t : List Char, ∀ l ∈ (scanBuffer t).1,
       quoteScan l false = false ∧
       ∀ delim : Char, parseCsvLine l delim ≠ ParseResult.error) ∧
    (∀ t : List Char, joinLines (scanBuffer t).1 ++ (scanBuffer t).2 = t) ∧
    (∀ chunks : List (List Char),
       joinChunks chunks = ("\"a,b\nc\",d\n").toList →
       (runCSV { expectHeaders := false } chunks).2.filter isCsvrowEvt =
         [CSVEvent.csvrowEvt 1
           [(['1'], ("a,b\nc").toList), (['2'], ['d'])]
           (("\"a,b\nc\",d").toList)
           [("a,b\nc").toList, ['d']] 2]) := by
  refine ⟨?_, ?_, scanBuffer_reconstruct, ?_⟩
  · intro chunks
    simpa using scanChunks_clean chunks [] rfl
  · intro t l hl
    have hbal := scanBuffer_lines_balanced t l hl
    refine ⟨hbal, ?_⟩
    intro delim herr
    rw [parseCsvLine_error_iff] at herr
    rw [hbal] at herr
    exact absurd herr (by simp)
  · intro chunks h
    have h1 := runCSV_nonProgress_eq_single { expectHeaders := false } chunks
    have h2 : (runCSV { expectHeaders := false } chunks).2.filter isCsvrowEvt =
        (runCSV { expectHeaders := false } [joinChunks chunks]).2.filter isCsvrowEvt := by
      rw [← filter_csvrow_nonProgress, h1, filter_csvrow_nonProgress]
    rw [h2, h]
    decide

/-- C1 witness: a concrete fragmentation splitting the quoted field across
three chunks, one boundary inside the quoted field and one right after the
embedded newline; the scanner produces the one balanced logical line
`"a,b\nc",d` and the row carries the field `a,b\nc` intact. -/
theorem claim_C1_witness :
    scanChunks [] [("\"a,").toList, ("b\n").toList, ("c\",d\n").toList] =
      scanBuffer (("\"a,b\nc\",d\n").toList) ∧
    quoteScan (("\"a,b\nc\",d").toList) false = false ∧
    joinChunks [("\"a,").toList, ("b\n").toList, ("c\",d\n").toList] =
      ("\"a,b\nc\",d\n").toList ∧
    (runCSV { expectHeaders := false }
        [("\"a,").toList, ("b\n").toList, ("c\",d\n").toList]).2.filter isCsvrowEvt =
      [CSVEvent.csvrowEvt 1
        [(['1'], ("a,b\nc").toList), (['2'], ['d'])]
        (("\"a,b\nc\",d").toList)
        [("a,b\nc").toList, ['d']] 2] :=
  ⟨claim_C1.1 [("\"a,").toList, ("b\n").toList, ("c\",d\n").toList],
   (claim_C1.2.1 (("\"a,b\nc\",d\n").toList) (("\"a,b\nc\",d").toList)
     (by decide)).1,
   by decide,
   claim_C1.2.2.2 [("\"a,").toList, ("b\n").toList, ("c\",d\n").toList] (by decide)⟩

/-- C2: fragmentation invariance: for every option set, every input text and
every partition of it into ordered fragments, feeding the fragments one at a
time produces exactly the same sequence of csvrow events (payloads and order)
as feeding the whole text as a single fragment. -/
theorem claim_C2 (o : CSVStreamOptions) (chunks : List (List Char)) :
    (runCSV o chunks).2.filter isCsvrowEvt =
      (runCSV o [joinChunks chunks]).2.filter isCsvrowEvt := by
  rw [← filter_csvrow_nonProgress, runCSV_nonProgress_eq_single o chunks,
    filter_csvrow_nonProgress]

/-- C4: the single-line tokenizer contract: tokenization fails with
`UNBALANCED_QUOTES` exactly when the quote automaton ends the line still
inside quotes; `a,,c` yields `["a","","c"]`; the empty line yields `[""]`;
an unclosed quote yields the error; a doubled quote inside quotes emits one
literal quote; an unquoted delimiter splits fields while a quoted one does
not. -/
theorem claim_C4 :
    (∀ (line : List Char) (delim : Char),
       parseCsvLine line delim = ParseResult.error ↔ quoteScan line false = true) ∧
    parseCsvLine (("a,,c").toList) ',' = ParseResult.fields [['a'], [], ['c']] ∧
    parseCsvLine [] ',' = ParseResult.fields [[]] ∧
    parseCsvLine (("\"unterminated").toList) ',' = ParseResult.error ∧
    parseCsvLine (("\"a\"\"b\",c").toList) ',' =
      ParseResult.fields [("a\"b").toList, ['c']] ∧
    parseCsvLine (("\"a,b\"").toList) ',' = ParseResult.fields [("a,b").toList] :=
  ⟨parseCsvLine_error_iff, by decide, by decide, by decide, by decide, by decide⟩

/-- C10: whenever the tokenizer returns a field list, it is non-empty and its
length is one plus the number of delimiter occurrences outside quoted regions;
and a line ending in an unquoted delimiter occurrence (the delimiter not being
the quote character, which the tokenizer would treat as a quote) ends in an
empty field. -/
theorem claim_C10 (line : List Char) (d : Char) (fs : List (List Char))
    (hp : parseCsvLine line d = ParseResult.fields fs) :
    fs ≠ [] ∧
    fs.length = unquotedDelimCount d line false + 1 ∧
    (d ≠ '"' → line.getLast? = some d → fs.getLast? = some []) := by
  refine ⟨?_, parseCsvLine_length line d fs hp, ?_⟩
  · intro h
    subst h
    have := parseCsvLine_length line d [] hp
    simp at this
  · intro hd hlast
    exact parseCsvLine_trailing line d fs hd hp hlast

/-- C10 witness: `a,b,` parses to three fields; 3 = 2 unquoted commas + 1, and
the trailing comma yields a final empty field. -/
theorem claim_C10_witness :
    ([['a'], ['b'], ([] : List Char)] : List (List Char)) ≠ [] ∧
    (3 : Nat) = unquotedDelimCount ',' (("a,b,").toList) false + 1 ∧
    ([['a'], ['b'], ([] : List Char)] : List (List Char)).getLast? = some [] := by
  have h := claim_C10 (("a,b,").toList) ',' [['a'], ['b'], []] (by decide)
  exact ⟨h.1, by simpa using h.2.1, h.2.2 (by decide) (by decide)⟩

/-- C3: the claim says that after a terminal error no further lines are
tokenized, no csvrow events are emitted and the end event is never emitted.
The code violates the last part when the terminal error arises while `_flush`
processes the final unterminated line: `_flush` checks the error flag only on
entry, so after the `UNBALANCED_QUOTES` error on the flushed line `"unclosed`
it still emits `end` (with `totalRows 0, totalLines 2`). -/
theorem claim_C3 :
    (runCSV {} [("name\n\"unclosed").toList]).2 =
      [CSVEvent.headersEvt [("name").toList] 1,
       CSVEvent.errorEvt CSVErrorType.UNBALANCED_QUOTES unbalancedQuotesMessage 2
         (("\"unclosed").toList),
       CSVEvent.endEvt 0 2] := by
  decide

/-- C5: in validate-first-row mode the first meaningful line's normalized
fields are compared against the normalized expected list: on exact match a
headers event is emitted (with the resolved headers stored) and no csvrow
event; on any mismatch an error event is emitted whose message is built from
both the expected and the actual header lists, the error flag becomes set, and
no events at all — in particular no csvrow — are produced for any subsequent
input; a count difference is automatically a mismatch. -/
theorem claim_C5 (o : CSVStreamOptions) (s : StreamState) (rawLine : List Char)
    (exp fs : List (List Char))
    (hexp : o.expectHeaders = true) (hh : o.headers = some exp)
    (hv : s.headersValidated = false)
    (hblank : jsTrim (dropTrailingCR rawLine) ≠ [])
    (hparse : parseCsvLine (dropTrailingCR rawLine) o.delimiter = ParseResult.fields fs) :
    (exp.map normalizeHeader = parseHeaderFields fs →
       (processLine o s rawLine).2 =
         [CSVEvent.headersEvt (parseHeaderFields fs) (s.lineNum + 1)] ∧
       (processLine o s rawLine).1.headers = some (parseHeaderFields fs)) ∧
    (exp.map normalizeHeader ≠ parseHeaderFields fs →
       (processLine o s rawLine).2 =
         [CSVEvent.errorEvt CSVErrorType.PARSE_ERROR
            (headerMismatchMessage (exp.map normalizeHeader) (parseHeaderFields fs))
            (s.lineNum + 1) (dropTrailingCR rawLine)] ∧
       (processLine o s rawLine).1.hasError = true ∧
       (∀ cs : List (List Char),
          (runChunks o (processLine o s rawLine).1 cs).2 = [] ∧
          (flush o (runChunks o (processLine o s rawLine).1 cs).1).2 = [])) ∧
    ((exp.map normalizeHeader).length ≠ (parseHeaderFields fs).length →
       exp.map normalizeHeader ≠ parseHeaderFields fs) := by
  have hpl := processLine_header_validate o s rawLine exp fs hexp hh hv hblank hparse
  refine ⟨?_, ?_, ?_⟩
  · intro hmatch
    have hm : headersMatch (exp.map normalizeHeader) (parseHeaderFields fs) = true :=
      (headersMatch_iff _ _).mpr hmatch
    rw [hpl, if_pos hm]
    exact ⟨rfl, rfl⟩
  · intro hmis
    have hm : ¬(headersMatch (exp.map normalizeHeader) (parseHeaderFields fs) = true) :=
      fun hc => hmis ((headersMatch_iff _ _).mp hc)
    rw [hpl, if_neg hm]
    refine ⟨rfl, rfl, ?_⟩
    intro cs
    exact hasError_silent o _ rfl cs
  · intro hlen heq
    exact hlen (by rw [heq])

/-- C5 witness: validating against expected headers `[name]`, the first line
`x` mismatches and yields exactly the error event naming both lists. -/
theorem claim_C5_witness :
    (processLine { headers := some [("name").toList] }
        (initState { headers := some [("name").toList] }) (("x").toList)).2 =
      [CSVEvent.errorEvt CSVErrorType.PARSE_ERROR
         (("Header mismatch: expected [name], got [x]").toList) 1 (("x").toList)] := by
  have h := claim_C5 { headers := some [("name").toList] }
    (initState { headers := some [("name").toList] }) (("x").toList)
    [("name").toList] [['x']] rfl rfl rfl (by decide) (by decide)
  rw [(h.2.1 (by decide)).1]
  decide

/-- C6: with strict-column enforcement and resolved headers `hs2`, a data line
whose fields include a non-blank overflow past the header count triggers an
error event whose message carries the actual column count and the header
count, and no csvrow event; a line whose overflow fields are all blank
produces no error event and its row is emitted. -/
theorem claim_C6 (o : CSVStreamOptions) (s : StreamState) (rawLine : List Char)
    (hs2 fs : List (List Char))
    (hstrict : o.strictColumns = true) (hhs : s.headers = some hs2)
    (hnh : ¬(o.expectHeaders = true ∧ s.headersValidated = false))
    (hblank : jsTrim (dropTrailingCR rawLine) ≠ [])
    (hparse : parseCsvLine (dropTrailingCR rawLine) o.delimiter = ParseResult.fields fs) :
    ((fs.drop hs2.length).any (fun f => !(jsTrim f).isEmpty) = true →
       (processLine o s rawLine).2 =
         [CSVEvent.errorEvt CSVErrorType.PARSE_ERROR
            (strictColumnsMessage (s.rowNum + 1) fs.length hs2.length)
            (s.lineNum + 1) (dropTrailingCR rawLine)] ∧
       (processLine o s rawLine).2.filter isCsvrowEvt = []) ∧
    ((fs.drop hs2.length).all (fun f => (jsTrim f).isEmpty) = true →
       (processLine o s rawLine).2.filter isErrorEvt = [] ∧
       (processLine o s rawLine).2.filter isCsvrowEvt =
         [CSVEvent.csvrowEvt (s.rowNum + 1) (buildRowWithHeaders hs2 fs)
            (dropTrailingCR rawLine) fs fs.length]) := by
  have hdata := processLine_data o s rawLine fs hnh hblank hparse
  constructor
  · intro hextra
    have hrp := rowPhase_strict o { s with lineNum := s.lineNum + 1 }
      (dropTrailingCR rawLine) fs hs2 hstrict hhs hextra
    rw [hdata, hrp]
    exact ⟨rfl, by simp [isCsvrowEvt]⟩
  · intro hall
    have hok : ¬(o.strictColumns = true ∧
        hasNonEmptyExtra ({ s with lineNum := s.lineNum + 1 } : StreamState).headers fs
          = true) := by
      rintro ⟨_, hcon⟩
      rw [show ({ s with lineNum := s.lineNum + 1 } : StreamState).headers = s.headers
        from rfl, hhs] at hcon
      simp only [hasNonEmptyExtra, List.any_eq_true] at hcon
      rcases hcon with ⟨f, hf, hne⟩
      have := List.all_eq_true.mp hall f hf
      rw [this] at hne
      simp at hne
    have hrp := rowPhase_ok o { s with lineNum := s.lineNum + 1 }
      (dropTrailingCR rawLine) fs hok
    rw [hdata, hrp]
    constructor
    · rw [List.filter_cons_of_neg (by simp [isErrorEvt])]
      exact (maybeEmitProgress_filters o _).2
    · rw [List.filter_cons_of_pos (by simp [isCsvrowEvt])]
      rw [(maybeEmitProgress_filters o _).1]
      rw [show ({ s with lineNum := s.lineNum + 1 } : StreamState).headers = s.headers
        from rfl, hhs]

/-- C6 witness: headers `[name, age]` with strict columns, data line
`Alice,30,extra` → exactly the error "Row 1 has 3 columns but expected 2" and
no csvrow event. -/
theorem claim_C6_witness :
    (processLine { expectHeaders := false
                   headers := some [("name").toList, ("age").toList]
                   strictColumns := true }
        (initState { expectHeaders := false
                     headers := some [("name").toList, ("age").toList]
                     strictColumns := true })
        (("Alice,30,extra").toList)).2 =
      [CSVEvent.errorEvt CSVErrorType.PARSE_ERROR
         (("Row 1 has 3 columns but expected 2").toList) 1
         (("Alice,30,extra").toList)] := by
  have h := claim_C6 { expectHeaders := false
                       headers := some [("name").toList, ("age").toList]
                       strictColumns := true }
    (initState { expectHeaders := false
                 headers := some [("name").toList, ("age").toList]
                 strictColumns := true })
    (("Alice,30,extra").toList)
    [("name").toList, ("age").toList]
    [("Alice").toList, ("30").toList, ("extra").toList]
    rfl (by decide) (by decide) (by decide) (by decide)
  rw [(h.1 (by decide)).1]
  decide

/-- C7 counterexample: with strict columns, input `a,b\n1,2,x` (the data line
arriving at flush) suppresses the row, yet the stream's row counter reads 1
and the emitted end event reports `totalRows 1` although zero csvrow events
were emitted — refuting "a row suppressed by strict-column enforcement does
not increment the row counter". -/
theorem claim_C7_counterexample :
    (runCSV { strictColumns := true } [("a,b\n1,2,x").toList]).1.rowNum = 1 ∧
    (runCSV { strictColumns := true } [("a,b\n1,2,x").toList]).2.filter isCsvrowEvt
      = [] ∧
    (runCSV { strictColumns := true } [("a,b\n1,2,x").toList]).2.filter isEndEvt =
      [CSVEvent.endEvt 1 2] := by
  decide

/-- C7 (amended): the row counter increments when a data line begins
materialization, before strict-column enforcement, so a row suppressed by
strict-column enforcement does increment the counter (its number appears in
the error message) while not being emitted; since the error is terminal, no
further events — in particular no csvrow carrying any row number — are
produced afterwards. -/
theorem claim_C7 (o : CSVStreamOptions) (s : StreamState) (rawLine : List Char)
    (hs2 fs : List (List Char))
    (hstrict : o.strictColumns = true) (hhs : s.headers = some hs2)
    (hnh : ¬(o.expectHeaders = true ∧ s.headersValidated = false))
    (hblank : jsTrim (dropTrailingCR rawLine) ≠ [])
    (hparse : parseCsvLine (dropTrailingCR rawLine) o.delimiter = ParseResult.fields fs)
    (hextra : (fs.drop hs2.length).any (fun f => !(jsTrim f).isEmpty) = true) :
    (processLine o s rawLine).1.rowNum = s.rowNum + 1 ∧
    (processLine o s rawLine).2.filter isCsvrowEvt = [] ∧
    (processLine o s rawLine).1.hasError = true ∧
    (∀ cs : List (List Char),
       (runChunks o (processLine o s rawLine).1 cs).2 = [] ∧
       (flush o (runChunks o (processLine o s rawLine).1 cs).1).2 = []) := by
  have hdata := processLine_data o s rawLine fs hnh hblank hparse
  have hrp := rowPhase_strict o { s with lineNum := s.lineNum + 1 }
    (dropTrailingCR rawLine) fs hs2 hstrict hhs hextra
  rw [hdata, hrp]
  refine ⟨rfl, by simp [isCsvrowEvt], rfl, ?_⟩
  intro cs
  exact hasError_silent o _ rfl cs

/-- C7 witness: preset headers `[name, age]`, strict columns, first data line
`Alice,30,extra`: the suppressed row increments the counter to 1, is not
emitted, and the error flag is set. -/
theorem claim_C7_witness :
    (processLine { expectHeaders := false
                   headers := some [("name").toList, ("age").toList]
                   strictColumns := true }
        (initState { expectHeaders := false
                     headers := some [("name").toList, ("age").toList]
                     strictColumns := true })
        (("Bob,25,oops").toList)).1.rowNum = 1 ∧
    (processLine { expectHeaders := false
                   headers := some [("name").toList, ("age").toList]
                   strictColumns := true }
        (initState { expectHeaders := false
                     headers := some [("name").toList, ("age").toList]
                     strictColumns := true })
        (("Bob,25,oops").toList)).2.filter isCsvrowEvt = [] ∧
    (processLine { expectHeaders := false
                   headers := some [("name").toList, ("age").toList]
                   strictColumns := true }
        (initState { expectHeaders := false
                     headers := some [("name").toList, ("age").toList]
                     strictColumns := true })
        (("Bob,25,oops").toList)).1.hasError = true := by
  have h := claim_C7 { expectHeaders := false
                       headers := some [("name").toList, ("age").toList]
                       strictColumns := true }
    (initState { expectHeaders := false
                 headers := some [("name").toList, ("age").toList]
                 strictColumns := true })
    (("Bob,25,oops").toList)
    [("name").toList, ("age").toList]
    [("Bob").toList, ("25").toList, ("oops").toList]
    rfl (by decide) (by decide) (by decide) (by decide) (by decide)
  exact ⟨by simpa using h.1, h.2.1, h.2.2.1⟩

/-- C8: the line counter increments exactly once per processed logical line
(blank and header lines included) and the row counter increments exactly when
the line is non-blank, tokenizes successfully and is not consumed as the
header line; for `a,b\n\n1,2\n\n3,4` under header capture the line counter
reaches 5 and the row counter reaches 2. -/
theorem claim_C8 :
    (∀ (o : CSVStreamOptions) (s : StreamState) (l : List Char),
       (processLine o s l).1.lineNum = s.lineNum + 1) ∧
    (∀ (o : CSVStreamOptions) (s : StreamState) (l : List Char),
       (processLine o s l).1.rowNum =
         if (jsTrim (dropTrailingCR l)).isEmpty = false ∧
            (parseCsvLine (dropTrailingCR l) o.delimiter).isFields = true ∧
            ¬(o.expectHeaders = true ∧ s.headersValidated = false)
         then s.rowNum + 1 else s.rowNum) ∧
    (runCSV {} [("a,b\n\n1,2\n\n3,4").toList]).1.lineNum = 5 ∧
    (runCSV {} [("a,b\n\n1,2\n\n3,4").toList]).1.rowNum = 2 :=
  ⟨processLine_lineNum, processLine_rowNum, by decide, by decide⟩

/-- C9: once the abort signal fires, the stream ignores all further chunks and
buffered lines, emits no further events (in particular no csvrow), and the
end-of-input flush emits nothing — so the whole session's events are exactly
those emitted before the abort, and none of those is an end event. -/
theorem claim_C9 (o : CSVStreamOptions) (ops1 ops2 : List StreamOp) :
    (runSession o (ops1 ++ StreamOp.abortSignal :: ops2)).2 =
      (runOps o (initState o) ops1).2 ∧
    (runOps o (initState o) ops1).2.filter isEndEvt = [] := by
  constructor
  · have hsil := runOps_aborted_silent o ops2
      ({ (runOps o (initState o) ops1).1 with aborted := true }) rfl
    have hflush : flush o (runOps o (initState o)
        (ops1 ++ StreamOp.abortSignal :: ops2)).1 =
        ((runOps o (initState o) (ops1 ++ StreamOp.abortSignal :: ops2)).1, []) := by
      apply flush_absorb
      left
      rw [runOps_append o ops1 (StreamOp.abortSignal :: ops2) (initState o)]
      exact hsil.2
    show (runOps o (initState o) (ops1 ++ StreamOp.abortSignal :: ops2)).2 ++
        (flush o (runOps o (initState o) (ops1 ++ StreamOp.abortSignal :: ops2)).1).2 = _
    rw [hflush]
    rw [runOps_append o ops1 (StreamOp.abortSignal :: ops2) (initState o)]
    show (runOps o (initState o) ops1).2 ++
        ([] ++ (runOps o ({ (runOps o (initState o) ops1).1 with aborted := true })
          ops2).2) ++ [] = _
    rw [hsil.1]
    simp
  · exact runOps_no_end o ops1 (initState o)
